import Mathlib

/-!
Verification of the NCERT-Books-Downloader repository: a shallow embedding of
the catalog query layer (downloader_funcs.py), the page-sort comparator, the
link derivation and catalog normalizer (scraper.py), the cleanup helpers
(folders_cleanup.py, clean_up_directory) and the two acquisition-pipeline
drivers (run_funcs_cli / run_funcs_gui), together with theorems settling the
specification claims.

Python exceptions are modelled by an explicit error type; every fallible
operation returns `Except PyErr`.  Machine strings are Lean `String`s
(the repository only handles ASCII file and subject names).
-/

set_option maxRecDepth 4000
set_option linter.unusedVariables false

namespace NCERT

/-- Abstract model of the Python exceptions the embedded code can raise. -/
inductive PyErr where
  /-- UnboundLocalError: reading a local variable that was never assigned
      (raised by get_link's final return when no book matched). -/
  | unboundLocal
  /-- TypeError: e.g. os.path.basename(None), or comparing str with tuple. -/
  | typeError
  /-- KeyError: dict lookup of a missing key. -/
  | keyError
  /-- ValueError: e.g. int() applied to a non-numeric string. -/
  | valueError
  /-- OSError / shutil errors while deleting or moving filesystem entries. -/
  | osError (msg : String)
  /-- requests exceptions, e.g. requests.get(None). -/
  | requestError
  deriving DecidableEq

/-! ## Python string primitives

Lean's built-in `String` operations do not reduce inside the kernel, so the
handful of Python string operations the repository uses are implemented here
over the underlying character lists, with Python's semantics (code-point
comparison, split on every separator occurrence, etc.). -/

/-- Python `<` on strings: lexicographic comparison by code point. -/
def pyLtChars : List Char → List Char → Bool
  | [], [] => false
  | [], _ :: _ => true
  | _ :: _, [] => false
  | c :: cs, d :: ds =>
    if c.toNat < d.toNat then true
    else if d.toNat < c.toNat then false
    else pyLtChars cs ds

/-- Python `s < t` for strings. -/
def pyLt (s t : String) : Bool :=
  pyLtChars s.data t.data

/-- Python `s.endswith(suffix)`. -/
def pyEndsWith (s suffix : String) : Bool :=
  s.data.drop (s.data.length - suffix.data.length) == suffix.data

/-- Python `s.startswith(p)` (used via str.startswith in json_file_export). -/
def pyStartsWith (s p : String) : Bool :=
  s.data.take p.data.length == p.data

/-- Python `s.split(sep)` for a one-character separator: split on every
occurrence, never merging (so the result list is never empty). -/
def pySplitChars (sep : Char) : List Char → List (List Char)
  | [] => [[]]
  | c :: cs =>
    let rest := pySplitChars sep cs
    if c = sep then [] :: rest
    else match rest with
      | [] => [[c]]
      | r :: rs => (c :: r) :: rs

/-- Python `s.split(sep)` at the string level. -/
def pySplit (s : String) (sep : Char) : List String :=
  (pySplitChars sep s.data).map String.mk

/-- Python `s.split("/")[-1]` — the basename-style last path segment.
The split result is never empty, so the Python [-1] index cannot fail. -/
def pyLastSegment (s : String) : String :=
  (pySplit s '/').getLastD s

/-- os.path.splitext(name)[0]: the name with its last extension removed
(unchanged when the name holds no dot). -/
def splitextRoot (s : String) : String :=
  if s.data.contains '.' then
    String.mk (((s.data.reverse.dropWhile (fun c => c ≠ '.')).drop 1).reverse)
  else s

/-- One step of Python str.title(): uppercase a letter that follows a
non-letter, lowercase a letter that follows a letter. -/
def pyTitleChars (prevAlpha : Bool) : List Char → List Char
  | [] => []
  | c :: cs =>
    if c.isAlpha then
      (if prevAlpha then c.toLower else c.toUpper) :: pyTitleChars true cs
    else c :: pyTitleChars false cs

/-- Python `s.title().replace(" ", "")` as used by file_name_gen. -/
def pyTitleNoSpaces (s : String) : String :=
  String.mk ((pyTitleChars false s.data).filter (fun c => c ≠ ' '))

/-! ## Catalog data model and query layer (downloader_funcs.py)

The canonical catalog JSON is a list of objects
`{class: int, subject: str, books: [{id, title, basecode, code, link, dlink}]}`.
`code`, `link`, `dlink` may be JSON null, hence `Option String`. -/

/-- One element of a catalog entry's `books` array. -/
structure Book where
  id : Nat
  title : String
  basecode : String
  code : Option String
  link : Option String
  dlink : Option String
  deriving DecidableEq

/-- One catalog entry `{class, subject, books}`.  `class` is a Python
keyword-free field name in JSON; `classNo` here. -/
structure CatalogEntry where
  classNo : Nat
  subject : String
  books : List Book
  deriving DecidableEq

/-- get_classes: unique class numbers, first-seen order. -/
def get_classes (data : List CatalogEntry) : List Nat :=
  data.foldl (fun acc item => if item.classNo ∈ acc then acc else acc ++ [item.classNo]) []

/-- get_subjects: subjects of all entries of the given class, duplicates kept. -/
def get_subjects (data : List CatalogEntry) (classno : Nat) : List String :=
  (data.filter (fun item => item.classNo = classno)).map (·.subject)

/-- get_books: titles of the books of every entry matching class and subject. -/
def get_books (data : List CatalogEntry) (classno : Nat) (subname : String) : List String :=
  ((data.filter (fun item => item.classNo = classno ∧ item.subject = subname)).flatMap
    (·.books)).map (·.title)

/-- The loop body of get_link: fold over all entries and, inside each
matching entry, over its books, remembering the fields of the last book
whose title matches (Python re-assigns the three locals on every match). -/
def get_link_fold (data : List CatalogEntry) (classno : Nat) (subname bookname : String) :
    Option (Option String × Option String × Option String) :=
  data.foldl
    (fun acc item =>
      if item.classNo = classno ∧ item.subject = subname then
        item.books.foldl
          (fun acc2 bk =>
            if bk.title = bookname then some (bk.dlink, bk.link, bk.code) else acc2)
          acc
      else acc)
    none

/-- get_link: returns (download_link, page_link, book_code) of the last
matching book; when no (class, subject, title) combination matched, the
Python `return` reads three never-assigned locals and raises
UnboundLocalError (the spec's NotFoundError). -/
def get_link (data : List CatalogEntry) (classno : Nat) (subname bookname : String) :
    Except PyErr (Option String × Option String × Option String) :=
  match get_link_fold data classno subname bookname with
  | some t => .ok t
  | none => .error .unboundLocal

/-- The books get_link's nested loops visit with all three guards true,
in visit order: every book with a matching title inside every entry with
matching class and subject. -/
def matchingBooks (data : List CatalogEntry) (classno : Nat) (subname bookname : String) :
    List Book :=
  (data.filter (fun item => item.classNo = classno ∧ item.subject = subname)).flatMap
    (fun item => item.books.filter (fun bk => bk.title = bookname))

/-! ## Page-order sort (merge_pdfs / extract_numeric_alpha)

extract_numeric_alpha returns either the tuple (int(first digit run),
following letter run) or, when the filename holds no digit, the filename
itself.  Python's sorted() compares the keys with `<`; comparing a tuple
with a str raises TypeError, so the comparator is fallible. -/

/-- A sort key as produced by extract_numeric_alpha: a Python
(int, str) tuple or a bare str fallback. -/
inductive SortKey where
  | tup (n : Nat) (alpha : String)
  | str (s : String)
  deriving DecidableEq

/-- Value of a run of decimal digit characters, as Python int() of the run. -/
def digitsToNat (cs : List Char) : Nat :=
  cs.foldl (fun acc c => 10 * acc + (c.toNat - 48)) 0

/-- Scan for the leftmost digit, as re.search's engine does: at the first
digit take the maximal digit run, then the maximal ASCII letter run. -/
def extractScan (filename : String) : List Char → SortKey
  | [] => .str filename
  | c :: rest =>
    if c.isDigit then
      let digits := c :: rest.takeWhile Char.isDigit
      let afterDigits := rest.dropWhile Char.isDigit
      let alpha := afterDigits.takeWhile Char.isAlpha
      .tup (digitsToNat digits) (String.mk alpha)
    else extractScan filename rest

/-- extract_numeric_alpha: re.search of (\d+)([a-zA-Z]*) over the filename;
on a match the (int, str) tuple of the two groups, otherwise the filename. -/
def extract_numeric_alpha (filename : String) : SortKey :=
  extractScan filename filename.data

/-- Python `<` on two sort keys: tuple-vs-tuple is lexicographic
(int first, then str by code points), str-vs-str is code-point order,
and a mixed comparison raises TypeError. -/
def keyLt : SortKey → SortKey → Except PyErr Bool
  | .tup n1 a1, .tup n2 a2 => .ok (decide (n1 < n2) || (decide (n1 = n2) && pyLt a1 a2))
  | .str s1, .str s2 => .ok (pyLt s1 s2)
  | _, _ => .error .typeError

/-- Insert an element into an already-sorted prefix, after all elements it
is not strictly below (this is where a stable comparison sort places a
later-arriving element); any key comparison may raise. -/
def insertByKey (key : α → SortKey) (x : α) : List α → Except PyErr (List α)
  | [] => .ok [x]
  | y :: ys => do
    let b ← keyLt (key x) (key y)
    if b then
      .ok (x :: y :: ys)
    else do
      let tail ← insertByKey key x ys
      .ok (y :: tail)

/-- sorted(files, key=extract_numeric_alpha): a stable comparison sort over
the fallible key order.  It succeeds with the stably sorted list exactly
when Python's sorted() does, and raises TypeError exactly when sorted()
would compare a tuple key with a str key (any list holding both kinds). -/
def sortedByKey (key : α → SortKey) (l : List α) : Except PyErr (List α) :=
  l.foldlM (fun acc x => insertByKey key x acc) []

/-- The sorting step of merge_pdfs, applied to the ".pdf"-suffixed names of
the extraction directory: filter then sort by extract_numeric_alpha. -/
def merge_pdfs_order (files : List String) : Except PyErr (List String) :=
  sortedByKey extract_numeric_alpha (files.filter (fun f => pyEndsWith f ".pdf"))

/-- A filename contains a digit (so extract_numeric_alpha keys it by the
numeric tuple rather than the literal-name fallback). -/
def hasDigitRun (filename : String) : Bool :=
  filename.data.any Char.isDigit

/-- Whether a sort key is the numeric (int, str) tuple kind. -/
def keyIsTup : SortKey → Bool
  | .tup _ _ => true
  | .str _ => false

/-! ## Link derivation (scraper.py json_file_export) -/

/-- The code/link/dlink derivation inside json_file_export: when the raw
book code starts with the literal "textbook.php?", code is
split("=")[0].split("?")[1], link is <home>/<basecode> and dlink is
<home>/textbook/pdf/<code>dd.zip; otherwise all three are None.  The
Python [0] and [1] indexings cannot raise here: split() never returns an
empty list, and the matched prefix guarantees a "?" before any "=". -/
def derive_links (home code_value : String) :
    Option String × Option String × Option String :=
  if pyStartsWith code_value "textbook.php?" then
    let code_part1 := (pySplit code_value '=').headD ""
    let partcode := ((pySplit code_part1 '?').drop 1).headD ""
    (some partcode,
     some (home ++ "/" ++ code_value),
     some (home ++ "/textbook/pdf/" ++ partcode ++ "dd.zip"))
  else (none, none, none)

instance exceptDecEq {ε α : Type} [DecidableEq ε] [DecidableEq α] :
    DecidableEq (Except ε α)
  | .ok x, .ok y =>
    if h : x = y then .isTrue (by rw [h])
    else .isFalse (fun hc => h (by cases hc; rfl))
  | .ok _, .error _ => .isFalse (fun hc => Except.noConfusion hc)
  | .error _, .ok _ => .isFalse (fun hc => Except.noConfusion hc)
  | .error e, .error f =>
    if h : e = f then .isTrue (by rw [h])
    else .isFalse (fun hc => h (by cases hc; rfl))

/-! ## Cleanup passes (clean_up_directory, folders_cleanup.cleanup_folder)

Deleting a filesystem entry can raise; the outcome the filesystem would
give each entry is part of the modelled directory listing. -/

/-- One entry of a directory listing: its name, what kind of entry it is,
and whether an attempt to delete it raises (some OSError message) or
succeeds (none). -/
structure DirEntry where
  name : String
  isFile : Bool
  isLink : Bool
  isDir : Bool
  delFails : Option String
  deriving DecidableEq

/-- clean_up_directory (downloader_funcs.py): delete every listing entry
except the kept file and ".gitkeep".  The loop body has no try/except, so
the first deletion that raises propagates and ends the pass.  Returns the
paths deleted so far and the propagated error, if any. -/
def clean_up_directory (directory keep_file : String) :
    List DirEntry → List String × Option PyErr
  | [] => ([], none)
  | e :: es =>
    let item_path := directory ++ "/" ++ e.name
    if item_path ≠ keep_file ∧ e.name ≠ ".gitkeep" then
      match e.delFails with
      | some msg => ([], some (.osError msg))
      | none =>
        let rest := clean_up_directory directory keep_file es
        (item_path :: rest.1, rest.2)
    else clean_up_directory directory keep_file es

/-- cleanup_folder (folders_cleanup.py): skip ".gitkeep", then delete each
entry inside a per-item try/except, logging "Failed to delete" on an
exception and continuing.  Returns, in order, one (path, ok) log line per
processed entry; ok is false exactly when the deletion attempt raised
(an entry that is neither file, link nor directory attempts nothing and
cannot raise). -/
def cleanup_folder (folder_path : String) : List DirEntry → List (String × Bool)
  | [] => []
  | e :: es =>
    if e.name = ".gitkeep" then cleanup_folder folder_path es
    else
      let file_path := folder_path ++ "/" ++ e.name
      let raises := (e.isFile || e.isLink || e.isDir) && e.delFails.isSome
      (file_path, !raises) :: cleanup_folder folder_path es

/-! ## Acquisition pipeline (run_funcs_cli / run_funcs_gui)

The pipeline's filesystem footprint is the processing directory (flat
files plus extraction subdirectories), the output directory, and an event
trace recording each side effect when it actually happens.  The outcomes
of the external I/O steps (the archive GET's status, the zip's member
names) are an explicit oracle.  The processing and output roots exist
(they are the application's folders), so the os.makedirs calls on them
are no-ops and are not modelled. -/

/-- One entry of the processing directory. -/
inductive PEntry where
  | file (name : String)
  | dir (name : String) (files : List String)
  deriving DecidableEq

/-- Pipeline events, recorded when the corresponding effect happens. -/
inductive Event where
  | downloaded
  | extracted
  | converted
  | merged
  | cleaned
  | moved
  deriving DecidableEq

/-- The filesystem state the pipeline touches. -/
structure Fs where
  processing : List PEntry
  output : List String
  events : List Event
  deriving DecidableEq

/-- Outcomes of the external I/O steps. -/
structure Oracle where
  status : Nat
  zipFiles : List String
  deriving DecidableEq

/-- The name of a processing-directory entry. -/
def pentryName : PEntry → String
  | .file n => n
  | .dir n _ => n

/-- open(path, "wb"): truncate-or-create a flat file (an existing entry of
the same name keeps its listing position). -/
def putFile (entries : List PEntry) (name : String) : List PEntry :=
  if entries.any (fun e => pentryName e = name) then
    entries.map (fun e => if pentryName e = name then .file name else e)
  else entries ++ [.file name]

/-- Create-or-reuse an extraction directory and extractall the members
into it: existing non-member files are kept, members are (over)written. -/
def putDir (entries : List PEntry) (name : String) (zipFiles : List String) : List PEntry :=
  if entries.any (fun e =>
      match e with
      | .dir n _ => n = name
      | .file _ => False) then
    entries.map (fun e =>
      match e with
      | .dir n fs => if n = name then .dir n (fs.filter (fun f => f ∉ zipFiles) ++ zipFiles) else e
      | .file _ => e)
  else entries ++ [.dir name zipFiles]

/-- os.listdir of an extraction subdirectory, when it exists. -/
def dirFiles? (entries : List PEntry) (name : String) : Option (List String) :=
  entries.foldl
    (fun acc e =>
      match e with
      | .dir n fs => if n = name then some fs else acc
      | .file _ => acc)
    none

/-- Overwrite the file list of an extraction subdirectory. -/
def setDirFiles (entries : List PEntry) (name : String) (files : List String) : List PEntry :=
  entries.map (fun e =>
    match e with
    | .dir n _ => if n = name then .dir n files else e
    | .file _ => e)

/-- download_file: fetch the link into the processing directory, naming
the file from the URL's last path segment; requests.get(None) raises, a
non-200 status only prints and returns None, and a 200 writes the file
and returns its path. -/
def download_file (link : Option String) (dpath : String) (o : Oracle) (fs : Fs) :
    Fs × Except PyErr (Option String) :=
  match link with
  | none => (fs, .error .requestError)
  | some l =>
    let file_name := pyLastSegment l
    if o.status = 200 then
      ({ fs with
          processing := putFile fs.processing file_name,
          events := fs.events ++ [.downloaded] },
       .ok (some (dpath ++ "/" ++ file_name)))
    else (fs, .ok none)

/-- unzip_file: os.path.basename(None) raises TypeError before anything
touches the filesystem; otherwise the archive is unpacked into a
subdirectory named after the archive's base filename. -/
def unzip_file (zip_path : Option String) (extract_to : String) (o : Oracle) (fs : Fs) :
    Fs × Except PyErr String :=
  match zip_path with
  | none => (fs, .error .typeError)
  | some zp =>
    let file_name := pyLastSegment zp
    let folder_name := splitextRoot file_name
    ({ fs with
        processing := putDir fs.processing folder_name o.zipFiles,
        events := fs.events ++ [.extracted] },
     .ok (extract_to ++ "/" ++ folder_name))

/-- A filename the Convert stage treats as an image (case-sensitive
suffix test, as the Python endswith tuple). -/
def isImageName (f : String) : Bool :=
  pyEndsWith f ".jpg" || pyEndsWith f ".png" || pyEndsWith f ".jpeg"

/-- convert_images_to_pdfs: for every image in the listdir snapshot of the
extraction directory, write a same-base-name .pdf next to it. -/
def convert_images_to_pdfs (directory : String) (fs : Fs) : Fs × Except PyErr Unit :=
  let dirName := pyLastSegment directory
  match dirFiles? fs.processing dirName with
  | none => (fs, .error (.osError "listdir"))
  | some files =>
    let files2 := files.foldl
      (fun acc f =>
        if isImageName f then
          let pdfName := splitextRoot f ++ ".pdf"
          if pdfName ∈ acc then acc else acc ++ [pdfName]
        else acc)
      files
    ({ fs with
        processing := setDirFiles fs.processing dirName files2,
        events := fs.events ++ [.converted] }, .ok ())

/-- file_name_gen: \<class\>_\<SubjectTitleNoSpaces\>_\<BookTitleNoSpaces\>.pdf
and its path under the processing directory. -/
def file_name_gen (spath : String) (classno : Nat) (subname bkname : String) :
    String × String :=
  let merged_file_name :=
    Nat.repr classno ++ "_" ++ pyTitleNoSpaces subname ++ "_"
      ++ pyTitleNoSpaces bkname ++ ".pdf"
  (merged_file_name, spath ++ "/" ++ merged_file_name)

/-- merge_pdfs: list the extraction directory, keep the .pdf entries, sort
them with the fallible extract_numeric_alpha key order (merge_pdfs_order),
and write the concatenated document at the output path (in the processing
root). -/
def merge_pdfs (directory output_path : String) (fs : Fs) : Fs × Except PyErr Unit :=
  let dirName := pyLastSegment directory
  match dirFiles? fs.processing dirName with
  | none => (fs, .error (.osError "listdir"))
  | some files =>
    match merge_pdfs_order files with
    | .error e => (fs, .error e)
    | .ok _sorted =>
      ({ fs with
          processing := putFile fs.processing (pyLastSegment output_path),
          events := fs.events ++ [.merged] }, .ok ())

/-- The Cleanup stage over the pipeline state: run clean_up_directory on
the processing listing (deletions succeed here; the per-item failure
behaviour is the standalone model's concern) and drop the deleted
entries. -/
def clean_up_directory_fs (directory keep_file : String) (fs : Fs) : Fs × Except PyErr Unit :=
  let entries := fs.processing.map (fun e =>
    match e with
    | .file n => DirEntry.mk n true false false none
    | .dir n _ => DirEntry.mk n false false true none)
  let deleted := (clean_up_directory directory keep_file entries).1
  ({ fs with
      processing := fs.processing.filter
        (fun e => (directory ++ "/" ++ pentryName e) ∉ deleted),
      events := fs.events ++ [.cleaned] }, .ok ())

/-- move_file: move the merged document from the processing root into the
output directory (shutil.move raises when the source is gone).  The
destination folder is the Fs state's output field itself, so the path
argument carries no further information here. -/
def move_file (source_path destination_folder : String) (fs : Fs) : Fs × Except PyErr Unit :=
  let name := pyLastSegment source_path
  if fs.processing.any (fun e => pentryName e = name) then
    ({ fs with
        processing := fs.processing.filter (fun e => ¬pentryName e = name),
        output := if name ∈ fs.output then fs.output else fs.output ++ [name],
        events := fs.events ++ [.moved] }, .ok ())
  else (fs, .error (.osError "move"))

/-- run_funcs_cli: the eight pipeline stages in sequence; an exception at
any stage propagates with the filesystem as mutated so far. -/
def run_funcs_cli (json_data : List CatalogEntry) (class_number : Nat)
    (subject_name book_name processing_path opt_path : String) (o : Oracle) (fs : Fs) :
    Fs × Except PyErr (Option String × Option String × Option String × String) :=
  match get_link json_data class_number subject_name book_name with
  | .error e => (fs, .error e)
  | .ok (download_link, page_link, book_code) =>
    match download_file download_link processing_path o fs with
    | (fs1, .error e) => (fs1, .error e)
    | (fs1, .ok opt_file) =>
      match unzip_file opt_file processing_path o fs1 with
      | (fs2, .error e) => (fs2, .error e)
      | (fs2, .ok unzip_path) =>
        match convert_images_to_pdfs unzip_path fs2 with
        | (fs3, .error e) => (fs3, .error e)
        | (fs3, .ok _) =>
          let fng := file_name_gen processing_path class_number subject_name book_name
          match merge_pdfs unzip_path fng.2 fs3 with
          | (fs4, .error e) => (fs4, .error e)
          | (fs4, .ok _) =>
            match clean_up_directory_fs processing_path fng.2 fs4 with
            | (fs5, .error e) => (fs5, .error e)
            | (fs5, .ok _) =>
              match move_file fng.2 opt_path fs5 with
              | (fs6, .error e) => (fs6, .error e)
              | (fs6, .ok _) =>
                (fs6, .ok (download_link, page_link, book_code, fng.1))

/-- run_funcs_gui: the same eight stages, additionally invoking the
progress callback with current_step/8 after each completed stage; the
collected callback arguments are returned alongside. -/
def run_funcs_gui (json_data : List CatalogEntry) (class_number : Nat)
    (subject_name book_name processing_path opt_path : String) (o : Oracle) (fs : Fs) :
    Fs × List ℚ × Except PyErr (Option String × Option String × Option String × String) :=
  match get_link json_data class_number subject_name book_name with
  | .error e => (fs, [], .error e)
  | .ok (download_link, page_link, book_code) =>
    match download_file download_link processing_path o fs with
    | (fs1, .error e) => (fs1, [1/8], .error e)
    | (fs1, .ok opt_file) =>
      match unzip_file opt_file processing_path o fs1 with
      | (fs2, .error e) => (fs2, [1/8, 2/8], .error e)
      | (fs2, .ok unzip_path) =>
        match convert_images_to_pdfs unzip_path fs2 with
        | (fs3, .error e) => (fs3, [1/8, 2/8, 3/8], .error e)
        | (fs3, .ok _) =>
          let fng := file_name_gen processing_path class_number subject_name book_name
          match merge_pdfs unzip_path fng.2 fs3 with
          | (fs4, .error e) => (fs4, [1/8, 2/8, 3/8, 4/8, 5/8], .error e)
          | (fs4, .ok _) =>
            match clean_up_directory_fs processing_path fng.2 fs4 with
            | (fs5, .error e) => (fs5, [1/8, 2/8, 3/8, 4/8, 5/8, 6/8], .error e)
            | (fs5, .ok _) =>
              match move_file fng.2 opt_path fs5 with
              | (fs6, .error e) => (fs6, [1/8, 2/8, 3/8, 4/8, 5/8, 6/8, 7/8], .error e)
              | (fs6, .ok _) =>
                (fs6, [1/8, 2/8, 3/8, 4/8, 5/8, 6/8, 7/8, 8/8],
                 .ok (download_link, page_link, book_code, fng.1))

/-! ## Scraper: parsed blocks, merge and normalization (scraper.py)

Python dicts are insertion-ordered association lists.  The string keys the
scraper manipulates are represented by inductive key types whose rendering
to the Python strings is injective: `RKey.Book i` stands for "Book{i}"
(and likewise Code), `EKey.book i` for "book{i}" (and basecode/code/link/
dlink), `EKey.klass` for "class", `EKey.subject` for "subject", `EKey.books`
for "books".  The renderings never collide, "book{i}"[4:] parses back to i,
and of the exported keys exactly "class", "subject" and "books" satisfy
str.isalpha() while "books" is the only non-"book{i}" key that satisfies
startswith("book"). -/

/-- Keys of a raw parsed block ({"CLASS", "SUBJECT", "Book{i}", "Code{i}"}). -/
inductive RKey where
  | CLASS
  | SUBJECT
  | Book (i : Nat)
  | Code (i : Nat)
  deriving DecidableEq

/-- A raw parsed block: a Python dict as an insertion-ordered list. -/
abbrev RDict := List (RKey × String)

/-- Python `k in d`. -/
def dictContains {κ ν : Type} [DecidableEq κ] (d : List (κ × ν)) (k : κ) : Bool :=
  d.any (fun p => p.1 = k)

/-- Python `d.get(k)`-style lookup: value of the (unique) entry with key k. -/
def dictGet? {κ ν : Type} [DecidableEq κ] (d : List (κ × ν)) (k : κ) : Option ν :=
  (d.find? (fun p => p.1 = k)).map Prod.snd

/-- Python `d[k]`: KeyError when the key is absent. -/
def dictGetE {κ ν : Type} [DecidableEq κ] (d : List (κ × ν)) (k : κ) : Except PyErr ν :=
  match dictGet? d k with
  | some v => .ok v
  | none => .error .keyError

/-- Python `d[k] = v`: overwrite in place when the key exists (keeping its
position), append at the end when it is fresh. -/
def dictSet {κ ν : Type} [DecidableEq κ] (d : List (κ × ν)) (k : κ) (v : ν) : List (κ × ν) :=
  if dictContains d k then d.map (fun p => if p.1 = k then (k, v) else p)
  else d ++ [(k, v)]

/-- The Book{i+1}/Code{i+1} entries of a parsed block, in the order the
enumerate loop of parse_if_else_block inserts them (all keys fresh, so
each dict assignment appends). -/
def bookKVs (start : Nat) : List (String × String) → List (RKey × String)
  | [] => []
  | (b, v) :: rest => (RKey.Book start, b) :: (RKey.Code start, v) :: bookKVs (start + 1) rest

/-- The book_data dict built by parse_if_else_block (scraper.py lines
62-68) from the matched class value, subject value and the zipped
(book title, book code) pairs. -/
def parse_if_else_block_data (class_value subject_value : String)
    (pairs : List (String × String)) : RDict :=
  (RKey.CLASS, class_value) :: (RKey.SUBJECT, subject_value) :: bookKVs 1 pairs

/-- merge_blocks' first while loop: the least counter ≥ the start value
whose Book key is absent.  The fuel d.length + 1 always suffices: the
counter takes fuel distinct values and a dict of n entries cannot contain
n + 1 distinct Book keys, so the guard fails within the fuel. -/
def firstMissingBook (d : RDict) : Nat → Nat → Nat
  | counter, 0 => counter
  | counter, fuel + 1 =>
    if dictContains d (RKey.Book counter) then firstMissingBook d (counter + 1) fuel
    else counter

/-- merge_blocks' search for the first commented record with the same
CLASS and SUBJECT; the `and` is short-circuit, so the SUBJECT lookups
only run when the CLASS values are equal. -/
def findMatchingCommented (vanilla : RDict) : List RDict → Except PyErr (Option RDict)
  | [] => .ok none
  | c :: cs => do
    let vc ← dictGetE vanilla RKey.CLASS
    let cc ← dictGetE c RKey.CLASS
    if vc = cc then do
      let vs ← dictGetE vanilla RKey.SUBJECT
      let ss ← dictGetE c RKey.SUBJECT
      if vs = ss then .ok (some c) else findMatchingCommented vanilla cs
    else findMatchingCommented vanilla cs

/-- merge_blocks' second while loop: copy Book{j}/Code{j} of the matching
commented record (for j = 1, 2, ... while Book{j} is present) into the
vanilla record at Book{bc + j - 1}/Code{bc + j - 1}.  Fuel
matching.length + 1 always suffices: j strictly increases and a dict of n
entries cannot contain n + 1 distinct Book keys. -/
def copyCommentedBooks (matching : RDict) (bc : Nat) : RDict → Nat → Nat → Except PyErr RDict
  | vanilla, _, 0 => .ok vanilla
  | vanilla, j, fuel + 1 =>
    if dictContains matching (RKey.Book j) then do
      let b ← dictGetE matching (RKey.Book j)
      let v ← dictGetE matching (RKey.Code j)
      copyCommentedBooks matching bc
        (dictSet (dictSet vanilla (RKey.Book (bc + j - 1)) b) (RKey.Code (bc + j - 1)) v)
        (j + 1) fuel
    else .ok vanilla

/-- The merge_blocks body for one vanilla record. -/
def mergeRecord (vanilla : RDict) (commented_list : List RDict) : Except PyErr RDict := do
  let m ← findMatchingCommented vanilla commented_list
  match m with
  | none => .ok vanilla
  | some matching =>
    let bc := firstMissingBook vanilla 1 (vanilla.length + 1)
    copyCommentedBooks matching bc vanilla 1 (matching.length + 1)

/-- A Python for-loop that applies a fallible body to every element,
collecting the results and propagating the first exception. -/
def mapE {α β : Type} (f : α → Except PyErr β) : List α → Except PyErr (List β)
  | [] => .ok []
  | x :: xs => do
    let y ← f x
    let ys ← mapE f xs
    .ok (y :: ys)

/-- merge_blocks at the level of record values: each vanilla record is
merged against the commented list and appended to the result. -/
def merge_blocks (vanilla_list commented_list : List RDict) : Except PyErr (List RDict) :=
  mapE (fun v => mergeRecord v commented_list) vanilla_list

/-- Keys of an exported item: "class", "subject", the per-book indexed
keys, and "books". -/
inductive EKey where
  | klass
  | subject
  | book (i : Nat)
  | basecode (i : Nat)
  | code (i : Nat)
  | link (i : Nat)
  | dlink (i : Nat)
  | books
  deriving DecidableEq

/-- JSON-ish values of an exported item: null, a string, an int, or the
list of transformed book records (id, title, basecode, code, link, dlink). -/
inductive EVal where
  | null
  | str (s : String)
  | int (n : Nat)
  | blist (bs : List (Nat × EVal × EVal × EVal × EVal × EVal))

/-- A transformed book record: id with the five copied values. -/
abbrev BookRec := Nat × EVal × EVal × EVal × EVal × EVal

/-- An exported item: a Python dict as an insertion-ordered list. -/
abbrev EDict := List (EKey × EVal)

/-- A derived Option String as the JSON value json.dump would write. -/
def optToEVal : Option String → EVal
  | some s => .str s
  | none => .null

/-- Python int() on the scraped CLASS strings: the numeral value of an
all-digit string, ValueError (none) otherwise. -/
def pyInt (s : String) : Option Nat :=
  if s.data ≠ [] ∧ s.data.all Char.isDigit then some (digitsToNat s.data) else none

/-- json_file_export's while loop over Book{i}: append book{i}, then (when
Code{i} is present) basecode{i} and the derived code{i}, link{i},
dlink{i} to sorted_item.  Fuel item.length + 1 always suffices (as for
firstMissingBook). -/
def exportBooksLoop (item : RDict) (home : String) : EDict → Nat → Nat → Except PyErr EDict
  | sorted_item, _, 0 => .ok sorted_item
  | sorted_item, i, fuel + 1 =>
    if dictContains item (RKey.Book i) then do
      let book ← dictGetE item (RKey.Book i)
      let s1 := dictSet sorted_item (EKey.book i) (EVal.str book)
      if dictContains item (RKey.Code i) then do
        let code_value ← dictGetE item (RKey.Code i)
        let s2 := dictSet s1 (EKey.basecode i) (EVal.str code_value)
        let cld := derive_links home code_value
        let s3 := dictSet s2 (EKey.code i) (optToEVal cld.1)
        let s4 := dictSet s3 (EKey.link i) (optToEVal cld.2.1)
        let s5 := dictSet s4 (EKey.dlink i) (optToEVal cld.2.2)
        exportBooksLoop item home s5 (i + 1) fuel
      else exportBooksLoop item home s1 (i + 1) fuel
    else .ok sorted_item

/-- The per-item body of json_file_export: build sorted_item with class
(int(CLASS), ValueError on a non-numeric string) and subject first, then
the book fields; the original item is then replaced by sorted_item
(item.clear(); item.update(sorted_item)). -/
def exportItem (home : String) (item : RDict) : Except PyErr EDict :=
  let step1 : Except PyErr EDict :=
    if dictContains item RKey.CLASS then
      match dictGetE item RKey.CLASS with
      | .error e => .error e
      | .ok cv =>
        match pyInt cv with
        | some n => .ok (dictSet [] EKey.klass (EVal.int n))
        | none => .error .valueError
    else .ok []
  match step1 with
  | .error e => .error e
  | .ok s1 =>
    let step2 : Except PyErr EDict :=
      if dictContains item RKey.SUBJECT then
        match dictGetE item RKey.SUBJECT with
        | .error e => .error e
        | .ok sv => .ok (dictSet s1 EKey.subject (EVal.str sv))
      else .ok s1
    match step2 with
    | .error e => .error e
    | .ok s2 => exportBooksLoop item home s2 1 (item.length + 1)

/-- transform_data's key scan: for every key satisfying startswith("book")
— the book{i} keys, but also a literal "books" key, whose tail "s" would
make int(key[4:]) raise ValueError — build the book record from the
basecode/code/link/dlink entries of the same index (KeyError if absent). -/
def collectBooks (item : EDict) : List (EKey × EVal) → Except PyErr (List BookRec)
  | [] => .ok []
  | (EKey.book i, v) :: rest => do
    let bc ← dictGetE item (EKey.basecode i)
    let c ← dictGetE item (EKey.code i)
    let l ← dictGetE item (EKey.link i)
    let d ← dictGetE item (EKey.dlink i)
    let tail ← collectBooks item rest
    .ok ((i, v, bc, c, l, d) :: tail)
  | (EKey.books, _) :: _ => .error .valueError
  | _ :: rest => collectBooks item rest

/-- transform_data's per-item body: collect the book records in key order,
then append them under the fresh "books" key. -/
def transformItem (item : EDict) : Except PyErr EDict := do
  let bs ← collectBooks item item
  .ok (dictSet item EKey.books (EVal.blist bs))

/-- transform_data over all items. -/
def transform_data (data : List EDict) : Except PyErr (List EDict) :=
  mapE transformItem data

/-- str.isalpha() of the rendered key: true exactly for "class",
"subject" and "books" (the indexed keys contain digits). -/
def keyIsAlpha : EKey → Bool
  | .klass => true
  | .subject => true
  | .books => true
  | _ => false

/-- json_file_export's final loop: delete every key that is not purely
alphabetic. -/
def dropNonAlphaKeys (item : EDict) : EDict :=
  item.filter (fun p => keyIsAlpha p.1)

/-- json_file_export after merge_blocks: reshape every merged record,
transform, and drop the indexed keys, leaving {class, subject, books}. -/
def json_file_export_items (home : String) (merged : List RDict) : Except PyErr (List EDict) := do
  let exported ← mapE (exportItem home) merged
  let transformed ← transform_data exported
  .ok (transformed.map dropNonAlphaKeys)

/-- The scrape-and-normalize composition on parsed blocks: merge the
vanilla and commented parses, then export and transform. -/
def normalize_catalog (home : String) (vanilla commented : List RDict) :
    Except PyErr (List EDict) := do
  let merged ← merge_blocks vanilla commented
  json_file_export_items home merged

/-- The exported key/value group sequence for the canonical parsed-block
shape: book{i}, basecode{i}, code{i}, link{i}, dlink{i} per pair. -/
def exportKVs (home : String) : Nat → List (String × String) → EDict
  | _, [] => []
  | i, (b, v) :: rest =>
    (EKey.book i, EVal.str b)
      :: (EKey.basecode i, EVal.str v)
      :: (EKey.code i, optToEVal (derive_links home v).1)
      :: (EKey.link i, optToEVal (derive_links home v).2.1)
      :: (EKey.dlink i, optToEVal (derive_links home v).2.2)
      :: exportKVs home (i + 1) rest

/-- The transformed book records for the canonical shape. -/
def booksOf (home : String) : Nat → List (String × String) → List BookRec
  | _, [] => []
  | i, (b, v) :: rest =>
    (i, EVal.str b, EVal.str v, optToEVal (derive_links home v).1,
      optToEVal (derive_links home v).2.1, optToEVal (derive_links home v).2.2)
      :: booksOf home (i + 1) rest

/-- The id of a transformed book record. -/
def bookRecId (b : BookRec) : Nat := b.1

/-- The title value of a transformed book record. -/
def bookRecTitle (b : BookRec) : EVal := b.2.1

/-! ### Heap model of merge_blocks (for the in-place mutation claim)

Records are Python objects on a heap; the two argument lists hold
addresses.  merged_list.append(vanilla) appends the address itself, and
vanilla[...] = ... writes through the address, so each loop iteration
reads the current store. -/

/-- merge_blocks over a store of records: process the vanilla addresses in
order, reading every record through the current store and writing the
merged record back through the vanilla address. -/
def merge_blocks_heap (cas : List Nat) :
    List RDict → List Nat → Except PyErr (List RDict × List Nat)
  | store, [] => .ok (store, [])
  | store, a :: as => do
    let merged ← mergeRecord (store.getD a []) (cas.map (fun ca => store.getD ca []))
    let res ← merge_blocks_heap cas (store.set a merged) as
    .ok (res.1, a :: res.2)

/-! ## Helper lemmas -/

theorem foldl_lastify {α β : Type} (f : α → β) (l : List α) (acc : Option β) :
    l.foldl (fun _ x => some (f x)) acc =
      (l.getLast?).elim acc (fun x => some (f x)) := by
  induction l using List.reverseRecOn with
  | nil => rfl
  | append_singleton xs x _ => simp [List.foldl_append, List.getLast?_concat]

theorem foldl_guard_filter {α β : Type} (P : α → Prop) [DecidablePred P]
    (g : β → α → β) (l : List α) (acc : β) :
    l.foldl (fun a x => if P x then g a x else a) acc
      = (l.filter (fun x => decide (P x))).foldl g acc := by
  induction l generalizing acc with
  | nil => rfl
  | cons x xs ih => by_cases h : P x <;> simp [h, ih]

theorem foldl_flatMap {α β γ : Type} (g : β → γ → β) (h : α → List γ)
    (l : List α) (acc : β) :
    (l.flatMap h).foldl g acc = l.foldl (fun a x => (h x).foldl g a) acc := by
  induction l generalizing acc with
  | nil => rfl
  | cons x xs ih => simp [List.flatMap_cons, List.foldl_append, ih]

theorem extractScan_keyIsTup (fn : String) (cs : List Char) :
    keyIsTup (extractScan fn cs) = cs.any Char.isDigit := by
  induction cs with
  | nil => rfl
  | cons c rest ih =>
    cases h : c.isDigit
    · simpa [extractScan, h] using ih
    · simp [extractScan, h, keyIsTup]

theorem keyIsTup_extract (f : String) :
    keyIsTup (extract_numeric_alpha f) = hasDigitRun f :=
  extractScan_keyIsTup f f.data

theorem keyLt_ok_of_same_kind (k1 k2 : SortKey) (h : keyIsTup k1 = keyIsTup k2) :
    ∃ b, keyLt k1 k2 = .ok b := by
  cases k1 <;> cases k2 <;> first
    | exact ⟨_, rfl⟩
    | simp [keyIsTup] at h

theorem insertByKey_ok {α : Type} (key : α → SortKey) (t : Bool) (x : α) (l : List α)
    (hx : keyIsTup (key x) = t) (hl : ∀ y ∈ l, keyIsTup (key y) = t) :
    ∃ r, insertByKey key x l = .ok r ∧ ∀ y ∈ r, keyIsTup (key y) = t := by
  induction l with
  | nil =>
    refine ⟨[x], rfl, ?_⟩
    intro y hy
    simp only [List.mem_singleton] at hy
    rw [hy, hx]
  | cons y ys ih =>
    have hy : keyIsTup (key y) = t := hl y (List.mem_cons_self y ys)
    obtain ⟨b, hb⟩ := keyLt_ok_of_same_kind (key x) (key y) (hx.trans hy.symm)
    cases b with
    | true =>
      refine ⟨x :: y :: ys, by simp only [insertByKey, hb]; rfl, ?_⟩
      intro z hz
      rcases List.mem_cons.mp hz with h1 | h2
      · rw [h1, hx]
      · exact hl z h2
    | false =>
      obtain ⟨r, hr, hmem⟩ := ih (fun z hz => hl z (List.mem_cons_of_mem y hz))
      refine ⟨y :: r, by simp only [insertByKey, hb, hr]; rfl, ?_⟩
      intro z hz
      rcases List.mem_cons.mp hz with h1 | h2
      · rw [h1, hy]
      · exact hmem z h2

theorem foldlM_insert_ok {α : Type} (key : α → SortKey) (t : Bool) (l : List α)
    (acc : List α) (hl : ∀ x ∈ l, keyIsTup (key x) = t)
    (hacc : ∀ y ∈ acc, keyIsTup (key y) = t) :
    ∃ r, l.foldlM (fun a x => insertByKey key x a) acc = .ok r := by
  induction l generalizing acc with
  | nil => exact ⟨acc, rfl⟩
  | cons x xs ih =>
    obtain ⟨r, hr, hmem⟩ := insertByKey_ok key t x acc
      (hl x (List.mem_cons_self x xs)) hacc
    obtain ⟨r2, hr2⟩ := ih r (fun z hz => hl z (List.mem_cons_of_mem x hz)) hmem
    refine ⟨r2, ?_⟩
    rw [List.foldlM_cons, hr]
    exact hr2

theorem except_bind_ok {α β : Type} (a : α) (f : α → Except PyErr β) :
    (Except.ok a >>= f) = f a := rfl

theorem dictSet_append {κ ν : Type} [DecidableEq κ] (d : List (κ × ν)) (k : κ) (v : ν)
    (h : ∀ p ∈ d, p.1 ≠ k) : dictSet d k v = d ++ [(k, v)] := by
  unfold dictSet
  rw [if_neg]
  simp only [dictContains, List.any_eq_true, decide_eq_true_eq, not_exists]
  intro p hp
  exact h p hp.1 hp.2

theorem bookKVs_append : ∀ (P Q : List (String × String)) (st : Nat),
    bookKVs st (P ++ Q) = bookKVs st P ++ bookKVs (st + P.length) Q
  | [], Q, st => by simp [bookKVs]
  | (b, v) :: rest, Q, st => by
    have harith : st + 1 + rest.length = st + (rest.length + 1) := by omega
    show bookKVs st ((b, v) :: (rest ++ Q)) = _
    rw [bookKVs, bookKVs_append rest Q (st + 1), harith]
    simp [bookKVs]

theorem bookKVs_keys : ∀ (P : List (String × String)) (st : Nat) (p : RKey × String),
    p ∈ bookKVs st P →
    ∃ i, st ≤ i ∧ i < st + P.length ∧ (p.1 = RKey.Book i ∨ p.1 = RKey.Code i)
  | [], _, _, hp => absurd hp (List.not_mem_nil _)
  | (b, v) :: rest, st, p, hp => by
    rcases List.mem_cons.mp hp with h1 | h2
    · exact ⟨st, by omega, by simp only [List.length_cons]; omega, by rw [h1]; left; rfl⟩
    · rcases List.mem_cons.mp h2 with h3 | h4
      · exact ⟨st, by omega, by simp only [List.length_cons]; omega, by rw [h3]; right; rfl⟩
      · obtain ⟨i, hi1, hi2, hi3⟩ := bookKVs_keys rest (st + 1) p h4
        exact ⟨i, by omega, by simp only [List.length_cons]; omega, hi3⟩

theorem bookKVs_contains_Book : ∀ (P : List (String × String)) (st k : Nat),
    ((bookKVs st P).any (fun p => p.1 = RKey.Book k) = true) ↔ (st ≤ k ∧ k < st + P.length)
  | [], st, k => by simp [bookKVs]
  | (b, v) :: rest, st, k => by
    have ih := bookKVs_contains_Book rest (st + 1) k
    simp only [bookKVs, List.any_cons, Bool.or_eq_true, decide_eq_true_eq,
      RKey.Book.injEq, ih, List.length_cons]
    constructor
    · rintro (h | h | h)
      · omega
      · exact absurd h (by simp)
      · omega
    · intro h
      by_cases hs : st = k
      · exact Or.inl hs
      · exact Or.inr (Or.inr (by omega))

theorem bookKVs_contains_Code : ∀ (P : List (String × String)) (st k : Nat),
    ((bookKVs st P).any (fun p => p.1 = RKey.Code k) = true) ↔ (st ≤ k ∧ k < st + P.length)
  | [], st, k => by simp [bookKVs]
  | (b, v) :: rest, st, k => by
    have ih := bookKVs_contains_Code rest (st + 1) k
    simp only [bookKVs, List.any_cons, Bool.or_eq_true, decide_eq_true_eq,
      RKey.Code.injEq, ih, List.length_cons]
    constructor
    · rintro (h | h | h)
      · exact absurd h (by simp)
      · omega
      · omega
    · intro h
      by_cases hs : st = k
      · exact Or.inr (Or.inl hs)
      · exact Or.inr (Or.inr (by omega))

theorem parse_contains_Book (c s : String) (P : List (String × String)) (k : Nat) :
    (dictContains (parse_if_else_block_data c s P) (RKey.Book k) = true)
      ↔ (1 ≤ k ∧ k ≤ P.length) := by
  unfold dictContains parse_if_else_block_data
  simp only [List.any_cons, Bool.or_eq_true, decide_eq_true_eq]
  rw [bookKVs_contains_Book P 1 k]
  constructor
  · rintro (h | h | h)
    · exact absurd h (by simp)
    · exact absurd h (by simp)
    · omega
  · intro h
    exact Or.inr (Or.inr (by omega))

theorem parse_contains_Code (c s : String) (P : List (String × String)) (k : Nat) :
    (dictContains (parse_if_else_block_data c s P) (RKey.Code k) = true)
      ↔ (1 ≤ k ∧ k ≤ P.length) := by
  unfold dictContains parse_if_else_block_data
  simp only [List.any_cons, Bool.or_eq_true, decide_eq_true_eq]
  rw [bookKVs_contains_Code P 1 k]
  constructor
  · rintro (h | h | h)
    · exact absurd h (by simp)
    · exact absurd h (by simp)
    · omega
  · intro h
    exact Or.inr (Or.inr (by omega))

theorem getE_parse_CLASS (c s : String) (P : List (String × String)) :
    dictGetE (parse_if_else_block_data c s P) RKey.CLASS = .ok c := rfl

theorem getE_parse_SUBJECT (c s : String) (P : List (String × String)) :
    dictGetE (parse_if_else_block_data c s P) RKey.SUBJECT = .ok s := rfl

theorem find_bookKVs_Book : ∀ (Qpre : List (String × String)) (st : Nat) (b v : String)
    (Qrest : List (String × String)),
    (bookKVs st (Qpre ++ (b, v) :: Qrest)).find? (fun p => p.1 = RKey.Book (st + Qpre.length))
      = some (RKey.Book (st + Qpre.length), b)
  | [], st, b, v, Qrest => by
    simp [bookKVs]
  | (b0, v0) :: rest, st, b, v, Qrest => by
    have ih := find_bookKVs_Book rest (st + 1) b v Qrest
    have harith : st + ((b0, v0) :: rest).length = (st + 1) + rest.length := by
      simp; omega
    rw [harith, List.cons_append, bookKVs,
      List.find?_cons_of_neg _ (by simp; omega),
      List.find?_cons_of_neg _ (by simp),
      ih]

theorem find_bookKVs_Code : ∀ (Qpre : List (String × String)) (st : Nat) (b v : String)
    (Qrest : List (String × String)),
    (bookKVs st (Qpre ++ (b, v) :: Qrest)).find? (fun p => p.1 = RKey.Code (st + Qpre.length))
      = some (RKey.Code (st + Qpre.length), v)
  | [], st, b, v, Qrest => by
    simp only [List.nil_append, List.length_nil, Nat.add_zero, bookKVs]
    rw [List.find?_cons_of_neg _ (by simp), List.find?_cons_of_pos _ (by simp)]
  | (b0, v0) :: rest, st, b, v, Qrest => by
    have ih := find_bookKVs_Code rest (st + 1) b v Qrest
    have harith : st + ((b0, v0) :: rest).length = (st + 1) + rest.length := by
      simp; omega
    rw [harith, List.cons_append, bookKVs,
      List.find?_cons_of_neg _ (by simp),
      List.find?_cons_of_neg _ (by simp; omega),
      ih]

theorem getE_parse_Book (c s : String) (Qpre Qrest : List (String × String)) (b v : String) :
    dictGetE (parse_if_else_block_data c s (Qpre ++ (b, v) :: Qrest))
        (RKey.Book (1 + Qpre.length)) = .ok b := by
  unfold dictGetE dictGet? parse_if_else_block_data
  rw [List.find?_cons_of_neg _ (by simp), List.find?_cons_of_neg _ (by simp),
    find_bookKVs_Book Qpre 1 b v Qrest]
  rfl

theorem getE_parse_Code (c s : String) (Qpre Qrest : List (String × String)) (b v : String) :
    dictGetE (parse_if_else_block_data c s (Qpre ++ (b, v) :: Qrest))
        (RKey.Code (1 + Qpre.length)) = .ok v := by
  unfold dictGetE dictGet? parse_if_else_block_data
  rw [List.find?_cons_of_neg _ (by simp), List.find?_cons_of_neg _ (by simp),
    find_bookKVs_Code Qpre 1 b v Qrest]
  rfl

theorem firstMissingBook_canonical (d : RDict) (N : Nat)
    (hc : ∀ k, (dictContains d (RKey.Book k) = true) ↔ (1 ≤ k ∧ k ≤ N)) :
    ∀ (fuel j : Nat), 1 ≤ j → j ≤ N + 1 → N + 2 - j ≤ fuel →
      firstMissingBook d j fuel = N + 1
  | 0, j, h1, h2, h3 => by omega
  | fuel + 1, j, h1, h2, h3 => by
    by_cases hj : j ≤ N
    · rw [firstMissingBook, if_pos ((hc j).mpr ⟨h1, hj⟩)]
      exact firstMissingBook_canonical d N hc fuel (j + 1) (by omega) (by omega) (by omega)
    · have hJ : j = N + 1 := by omega
      rw [firstMissingBook, if_neg]
      · exact hJ
      · intro hcon
        have := (hc j).mp hcon
        omega

theorem parse_set_book_pair (c s : String) (Pcur : List (String × String)) (b v : String) :
    dictSet (dictSet (parse_if_else_block_data c s Pcur)
        (RKey.Book (Pcur.length + 1)) b) (RKey.Code (Pcur.length + 1)) v
      = parse_if_else_block_data c s (Pcur ++ [(b, v)]) := by
  have h1 : dictSet (parse_if_else_block_data c s Pcur) (RKey.Book (Pcur.length + 1)) b
      = parse_if_else_block_data c s Pcur ++ [(RKey.Book (Pcur.length + 1), b)] := by
    apply dictSet_append
    intro p hp
    rcases List.mem_cons.mp hp with h | h
    · rw [h]; simp
    · rcases List.mem_cons.mp h with h2 | h2
      · rw [h2]; simp
      · obtain ⟨i, hi1, hi2, hc | hc⟩ := bookKVs_keys Pcur 1 p h2
        · rw [hc]; simp only [ne_eq, RKey.Book.injEq]; omega
        · rw [hc]; simp
  have h2 : dictSet (parse_if_else_block_data c s Pcur ++ [(RKey.Book (Pcur.length + 1), b)])
      (RKey.Code (Pcur.length + 1)) v
      = (parse_if_else_block_data c s Pcur ++ [(RKey.Book (Pcur.length + 1), b)])
          ++ [(RKey.Code (Pcur.length + 1), v)] := by
    apply dictSet_append
    intro p hp
    rcases List.mem_append.mp hp with h | h
    · rcases List.mem_cons.mp h with h2 | h2
      · rw [h2]; simp
      · rcases List.mem_cons.mp h2 with h3 | h3
        · rw [h3]; simp
        · obtain ⟨i, hi1, hi2, hc | hc⟩ := bookKVs_keys Pcur 1 p h3
          · rw [hc]; simp
          · rw [hc]; simp only [ne_eq, RKey.Code.injEq]; omega
    · rw [List.mem_singleton.mp h]
      simp
  rw [h1, h2]
  unfold parse_if_else_block_data
  rw [bookKVs_append Pcur [(b, v)] 1]
  simp [bookKVs]
  have : 1 + Pcur.length = Pcur.length + 1 := by omega
  rw [this]

theorem copyCommented_canonical (c s c2 s2 : String) :
    ∀ (Qrest Qpre Pcur : List (String × String)) (j bc fuel : Nat),
      j = Qpre.length + 1 → bc + Qpre.length = Pcur.length + 1 →
      Qrest.length + 1 ≤ fuel →
      copyCommentedBooks (parse_if_else_block_data c2 s2 (Qpre ++ Qrest)) bc
          (parse_if_else_block_data c s Pcur) j fuel
        = .ok (parse_if_else_block_data c s (Pcur ++ Qrest))
  | [], Qpre, Pcur, j, bc, fuel, hj, hbc, hfuel => by
    cases fuel with
    | zero => omega
    | succ f =>
      rw [copyCommentedBooks, if_neg]
      · simp
      · intro hcon
        have := (parse_contains_Book c2 s2 (Qpre ++ []) j).mp hcon
        simp at this
        omega
  | (b, v) :: rest, Qpre, Pcur, j, bc, fuel, hj, hbc, hfuel => by
    cases fuel with
    | zero => simp at hfuel
    | succ f =>
      have hcontains : dictContains (parse_if_else_block_data c2 s2 (Qpre ++ (b, v) :: rest))
          (RKey.Book j) = true :=
        (parse_contains_Book c2 s2 _ j).mpr ⟨by omega, by simp; omega⟩
      have hb : dictGetE (parse_if_else_block_data c2 s2 (Qpre ++ (b, v) :: rest))
          (RKey.Book j) = .ok b := by
        rw [show j = 1 + Qpre.length from by omega]
        exact getE_parse_Book c2 s2 Qpre rest b v
      have hv : dictGetE (parse_if_else_block_data c2 s2 (Qpre ++ (b, v) :: rest))
          (RKey.Code j) = .ok v := by
        rw [show j = 1 + Qpre.length from by omega]
        exact getE_parse_Code c2 s2 Qpre rest b v
      rw [copyCommentedBooks, if_pos hcontains, hb, except_bind_ok, hv, except_bind_ok]
      have hidx : bc + j - 1 = Pcur.length + 1 := by omega
      rw [hidx, parse_set_book_pair c s Pcur b v]
      have ih := copyCommented_canonical c s c2 s2 rest (Qpre ++ [(b, v)]) (Pcur ++ [(b, v)])
        (j + 1) bc f (by simp; omega) (by simp; omega) (by simp at hfuel ⊢; omega)
      rw [List.append_assoc] at ih
      simp only [List.singleton_append] at ih
      rw [ih]
      rw [List.append_assoc]
      simp

theorem except_bind_error {α β : Type} (e : PyErr) (f : α → Except PyErr β) :
    (Except.error e >>= f : Except PyErr β) = .error e := rfl

theorem bookKVs_length : ∀ (P : List (String × String)) (st : Nat),
    (bookKVs st P).length = 2 * P.length
  | [], _ => rfl
  | (b, v) :: rest, st => by
    simp only [bookKVs, List.length_cons, bookKVs_length rest (st + 1)]
    omega

theorem parse_length (c s : String) (P : List (String × String)) :
    (parse_if_else_block_data c s P).length = 2 * P.length + 2 := by
  simp only [parse_if_else_block_data, List.length_cons, bookKVs_length P 1]

theorem findMatching_first (c s : String) (P Q : List (String × String)) (rest : List RDict) :
    findMatchingCommented (parse_if_else_block_data c s P)
        (parse_if_else_block_data c s Q :: rest)
      = .ok (some (parse_if_else_block_data c s Q)) := by
  rw [findMatchingCommented, getE_parse_CLASS, except_bind_ok, getE_parse_CLASS,
    except_bind_ok, if_pos rfl, getE_parse_SUBJECT, except_bind_ok, getE_parse_SUBJECT,
    except_bind_ok, if_pos rfl]

theorem findMatching_canonical (c s : String) (P : List (String × String)) :
    ∀ (cl : List RDict), (∀ r ∈ cl, ∃ c2 s2 Q, r = parse_if_else_block_data c2 s2 Q) →
      ∃ m, findMatchingCommented (parse_if_else_block_data c s P) cl = .ok m ∧
        (m = none ∨ ∃ r, m = some r ∧ r ∈ cl)
  | [], _ => ⟨none, rfl, Or.inl rfl⟩
  | r :: rs, h => by
    obtain ⟨c2, s2, Q, hr⟩ := h r (List.mem_cons_self r rs)
    subst hr
    have tail :
        ∃ m, findMatchingCommented (parse_if_else_block_data c s P) rs = .ok m ∧
          (m = none ∨ ∃ x, m = some x ∧ x ∈ rs) :=
      findMatching_canonical c s P rs (fun x hx => h x (List.mem_cons_of_mem _ hx))
    obtain ⟨m, hm, hmem⟩ := tail
    have hmem2 : m = none ∨ ∃ x, m = some x ∧
        x ∈ parse_if_else_block_data c2 s2 Q :: rs := by
      rcases hmem with h1 | ⟨x, hx1, hx2⟩
      · exact Or.inl h1
      · exact Or.inr ⟨x, hx1, List.mem_cons_of_mem _ hx2⟩
    rw [findMatchingCommented, getE_parse_CLASS, except_bind_ok, getE_parse_CLASS,
      except_bind_ok]
    by_cases hc : c = c2
    · rw [if_pos hc, getE_parse_SUBJECT, except_bind_ok, getE_parse_SUBJECT, except_bind_ok]
      by_cases hs : s = s2
      · exact ⟨some (parse_if_else_block_data c2 s2 Q), by rw [if_pos hs],
          Or.inr ⟨_, rfl, List.mem_cons_self _ _⟩⟩
      · rw [if_neg hs]
        exact ⟨m, hm, hmem2⟩
    · rw [if_neg hc]
      exact ⟨m, hm, hmem2⟩

theorem mergeRecord_first_match (c s : String) (P Q : List (String × String))
    (rest : List RDict) :
    mergeRecord (parse_if_else_block_data c s P) (parse_if_else_block_data c s Q :: rest)
      = .ok (parse_if_else_block_data c s (P ++ Q)) := by
  rw [mergeRecord, findMatching_first, except_bind_ok]
  have hbc : firstMissingBook (parse_if_else_block_data c s P) 1
      ((parse_if_else_block_data c s P).length + 1) = P.length + 1 := by
    apply firstMissingBook_canonical _ P.length (parse_contains_Book c s P)
    · omega
    · omega
    · rw [parse_length]; omega
  simp only [hbc]
  exact copyCommented_canonical c s c s Q [] P 1 (P.length + 1)
    ((parse_if_else_block_data c s Q).length + 1) rfl (by simp)
    (by rw [parse_length]; omega)

theorem mergeRecord_canonical (c s : String) (P : List (String × String)) (cl : List RDict)
    (hcl : ∀ r ∈ cl, ∃ c2 s2 Q, r = parse_if_else_block_data c2 s2 Q) :
    ∃ P2, mergeRecord (parse_if_else_block_data c s P) cl
      = .ok (parse_if_else_block_data c s P2) := by
  obtain ⟨m, hm, hmem⟩ := findMatching_canonical c s P cl hcl
  rw [mergeRecord, hm, except_bind_ok]
  rcases hmem with h1 | ⟨r, hr, hrmem⟩
  · subst h1
    exact ⟨P, rfl⟩
  · subst hr
    obtain ⟨c2, s2, Q, hr2⟩ := hcl r hrmem
    subst hr2
    have hbc : firstMissingBook (parse_if_else_block_data c s P) 1
        ((parse_if_else_block_data c s P).length + 1) = P.length + 1 := by
      apply firstMissingBook_canonical _ P.length (parse_contains_Book c s P)
      · omega
      · omega
      · rw [parse_length]; omega
    simp only [hbc]
    exact ⟨P ++ Q,
      copyCommented_canonical c s c2 s2 Q [] P 1 (P.length + 1)
        ((parse_if_else_block_data c2 s2 Q).length + 1) rfl (by simp)
        (by rw [parse_length]; omega)⟩

theorem mapE_ok_mem {α β : Type} (f : α → Except PyErr β) :
    ∀ (l : List α) (out : List β), mapE f l = .ok out →
      ∀ y ∈ out, ∃ x ∈ l, f x = .ok y
  | [], out, h => by
    rw [mapE] at h
    cases h
    intro y hy
    exact absurd hy (List.not_mem_nil y)
  | x :: xs, out, h => by
    rw [mapE] at h
    cases hfx : f x with
    | error e => rw [hfx, except_bind_error] at h; cases h
    | ok y0 =>
      rw [hfx, except_bind_ok] at h
      cases hrest : mapE f xs with
      | error e => rw [hrest, except_bind_error] at h; cases h
      | ok ys =>
        rw [hrest, except_bind_ok] at h
        cases h
        intro y hy
        rcases List.mem_cons.mp hy with h1 | h2
        · exact ⟨x, List.mem_cons_self x xs, by rw [hfx, h1]⟩
        · obtain ⟨x2, hx2, hfx2⟩ := mapE_ok_mem f xs ys hrest y h2
          exact ⟨x2, List.mem_cons_of_mem x hx2, hfx2⟩

theorem exportKVs_append (home : String) : ∀ (P Q : List (String × String)) (st : Nat),
    exportKVs home st (P ++ Q) = exportKVs home st P ++ exportKVs home (st + P.length) Q
  | [], Q, st => by simp [exportKVs]
  | (b, v) :: rest, Q, st => by
    have harith : st + 1 + rest.length = st + (rest.length + 1) := by omega
    show exportKVs home st ((b, v) :: (rest ++ Q)) = _
    rw [exportKVs, exportKVs_append home rest Q (st + 1), harith]
    simp [exportKVs]

theorem exportKVs_keys (home : String) : ∀ (P : List (String × String)) (st : Nat)
    (p : EKey × EVal), p ∈ exportKVs home st P →
    ∃ i, st ≤ i ∧ i < st + P.length ∧
      (p.1 = EKey.book i ∨ p.1 = EKey.basecode i ∨ p.1 = EKey.code i
        ∨ p.1 = EKey.link i ∨ p.1 = EKey.dlink i)
  | [], _, _, hp => absurd hp (List.not_mem_nil _)
  | (b, v) :: rest, st, p, hp => by
    simp only [exportKVs, List.mem_cons] at hp
    have hlt : st < st + ((b, v) :: rest).length := by
      simp only [List.length_cons]; omega
    rcases hp with h | h | h | h | h | h
    · exact ⟨st, Nat.le_refl st, hlt, by rw [h]; exact Or.inl rfl⟩
    · exact ⟨st, Nat.le_refl st, hlt, by rw [h]; exact Or.inr (Or.inl rfl)⟩
    · exact ⟨st, Nat.le_refl st, hlt, by rw [h]; exact Or.inr (Or.inr (Or.inl rfl))⟩
    · exact ⟨st, Nat.le_refl st, hlt, by rw [h]; exact Or.inr (Or.inr (Or.inr (Or.inl rfl)))⟩
    · exact ⟨st, Nat.le_refl st, hlt, by rw [h]; exact Or.inr (Or.inr (Or.inr (Or.inr rfl)))⟩
    · obtain ⟨i, hi1, hi2, hi3⟩ := exportKVs_keys home rest (st + 1) p h
      exact ⟨i, by omega, by simp only [List.length_cons]; omega, hi3⟩

theorem accPrefix_key_lt (home s2 : String) (n : Nat) (Qpre : List (String × String))
    (p : EKey × EVal)
    (hp : p ∈ (EKey.klass, EVal.int n) :: (EKey.subject, EVal.str s2)
        :: exportKVs home 1 Qpre)
    (m : Nat) (hm : Qpre.length < m) :
    p.1 ≠ EKey.book m ∧ p.1 ≠ EKey.basecode m ∧ p.1 ≠ EKey.code m
      ∧ p.1 ≠ EKey.link m ∧ p.1 ≠ EKey.dlink m := by
  rcases List.mem_cons.mp hp with h | h
  · rw [h]
    exact ⟨by simp, by simp, by simp, by simp, by simp⟩
  rcases List.mem_cons.mp h with h2 | h2
  · rw [h2]
    exact ⟨by simp, by simp, by simp, by simp, by simp⟩
  obtain ⟨i, hi1, hi2, hc⟩ := exportKVs_keys home Qpre 1 p h2
  have him : i ≠ m := by omega
  rcases hc with h3 | h3 | h3 | h3 | h3 <;> rw [h3] <;>
    refine ⟨?_, ?_, ?_, ?_, ?_⟩ <;>
    first
      | (simp only [ne_eq, EKey.book.injEq, EKey.basecode.injEq, EKey.code.injEq,
          EKey.link.injEq, EKey.dlink.injEq]; omega)
      | simp

theorem exportLoop_canonical (home c s : String) (n : Nat) :
    ∀ (Qrest Qpre : List (String × String)) (fuel : Nat),
      Qrest.length + 1 ≤ fuel →
      exportBooksLoop (parse_if_else_block_data c s (Qpre ++ Qrest)) home
          ((EKey.klass, EVal.int n) :: (EKey.subject, EVal.str s) :: exportKVs home 1 Qpre)
          (Qpre.length + 1) fuel
        = .ok ((EKey.klass, EVal.int n) :: (EKey.subject, EVal.str s)
            :: exportKVs home 1 (Qpre ++ Qrest))
  | [], Qpre, fuel, hf => by
    cases fuel with
    | zero => omega
    | succ f =>
      rw [exportBooksLoop, if_neg]
      · simp
      · intro hcon
        have := (parse_contains_Book c s (Qpre ++ []) _).mp hcon
        simp only [List.append_nil] at this
        omega
  | (b, v) :: rest, Qpre, fuel, hf => by
    cases fuel with
    | zero => simp at hf
    | succ f =>
      have hcontains : dictContains (parse_if_else_block_data c s (Qpre ++ (b, v) :: rest))
          (RKey.Book (Qpre.length + 1)) = true :=
        (parse_contains_Book c s _ _).mpr
          ⟨(by omega), (by simp only [List.length_append, List.length_cons]; omega)⟩
      have hccode : dictContains (parse_if_else_block_data c s (Qpre ++ (b, v) :: rest))
          (RKey.Code (Qpre.length + 1)) = true :=
        (parse_contains_Code c s _ _).mpr
          ⟨(by omega), (by simp only [List.length_append, List.length_cons]; omega)⟩
      have hgb : dictGetE (parse_if_else_block_data c s (Qpre ++ (b, v) :: rest))
          (RKey.Book (Qpre.length + 1)) = .ok b := by
        rw [show Qpre.length + 1 = 1 + Qpre.length from by omega]
        exact getE_parse_Book c s Qpre rest b v
      have hgv : dictGetE (parse_if_else_block_data c s (Qpre ++ (b, v) :: rest))
          (RKey.Code (Qpre.length + 1)) = .ok v := by
        rw [show Qpre.length + 1 = 1 + Qpre.length from by omega]
        exact getE_parse_Code c s Qpre rest b v
      rw [exportBooksLoop, if_pos hcontains, hgb, except_bind_ok, if_pos hccode,
        hgv, except_bind_ok]
      set i := Qpre.length + 1 with hi
      set acc := (EKey.klass, EVal.int n) :: (EKey.subject, EVal.str s)
        :: exportKVs home 1 Qpre with hacc
      have hm : Qpre.length < i := by omega
      have hs1 : dictSet acc (EKey.book i) (EVal.str b) = acc ++ [(EKey.book i, EVal.str b)] :=
        dictSet_append _ _ _ (fun p hp => (accPrefix_key_lt home s n Qpre p hp i hm).1)
      have hs2 : dictSet (acc ++ [(EKey.book i, EVal.str b)]) (EKey.basecode i)
          (EVal.str v) = acc ++ [(EKey.book i, EVal.str b), (EKey.basecode i, EVal.str v)] := by
        rw [dictSet_append]
        · simp
        · intro p hp
          rcases List.mem_append.mp hp with h | h
          · exact (accPrefix_key_lt home s n Qpre p h i hm).2.1
          · rw [List.mem_singleton.mp h]; simp
      have hs3 : dictSet (acc ++ [(EKey.book i, EVal.str b), (EKey.basecode i, EVal.str v)])
          (EKey.code i) (optToEVal (derive_links home v).1)
          = acc ++ [(EKey.book i, EVal.str b), (EKey.basecode i, EVal.str v),
              (EKey.code i, optToEVal (derive_links home v).1)] := by
        rw [dictSet_append]
        · simp
        · intro p hp
          rcases List.mem_append.mp hp with h | h
          · exact (accPrefix_key_lt home s n Qpre p h i hm).2.2.1
          · rcases List.mem_cons.mp h with h2 | h2
            · rw [h2]; simp
            · rw [List.mem_singleton.mp h2]; simp
      have hs4 : dictSet (acc ++ [(EKey.book i, EVal.str b), (EKey.basecode i, EVal.str v),
            (EKey.code i, optToEVal (derive_links home v).1)])
          (EKey.link i) (optToEVal (derive_links home v).2.1)
          = acc ++ [(EKey.book i, EVal.str b), (EKey.basecode i, EVal.str v),
              (EKey.code i, optToEVal (derive_links home v).1),
              (EKey.link i, optToEVal (derive_links home v).2.1)] := by
        rw [dictSet_append]
        · simp
        · intro p hp
          rcases List.mem_append.mp hp with h | h
          · exact (accPrefix_key_lt home s n Qpre p h i hm).2.2.2.1
          · rcases List.mem_cons.mp h with h2 | h2
            · rw [h2]; simp
            · rcases List.mem_cons.mp h2 with h3 | h3
              · rw [h3]; simp
              · rw [List.mem_singleton.mp h3]; simp
      have hs5 : dictSet (acc ++ [(EKey.book i, EVal.str b), (EKey.basecode i, EVal.str v),
            (EKey.code i, optToEVal (derive_links home v).1),
            (EKey.link i, optToEVal (derive_links home v).2.1)])
          (EKey.dlink i) (optToEVal (derive_links home v).2.2)
          = acc ++ [(EKey.book i, EVal.str b), (EKey.basecode i, EVal.str v),
              (EKey.code i, optToEVal (derive_links home v).1),
              (EKey.link i, optToEVal (derive_links home v).2.1),
              (EKey.dlink i, optToEVal (derive_links home v).2.2)] := by
        rw [dictSet_append]
        · simp
        · intro p hp
          rcases List.mem_append.mp hp with h | h
          · exact (accPrefix_key_lt home s n Qpre p h i hm).2.2.2.2
          · rcases List.mem_cons.mp h with h2 | h2
            · rw [h2]; simp
            · rcases List.mem_cons.mp h2 with h3 | h3
              · rw [h3]; simp
              · rcases List.mem_cons.mp h3 with h4 | h4
                · rw [h4]; simp
                · rw [List.mem_singleton.mp h4]; simp
      simp only [hs1, hs2, hs3, hs4, hs5]
      have hgrow : acc ++ [(EKey.book i, EVal.str b), (EKey.basecode i, EVal.str v),
            (EKey.code i, optToEVal (derive_links home v).1),
            (EKey.link i, optToEVal (derive_links home v).2.1),
            (EKey.dlink i, optToEVal (derive_links home v).2.2)]
          = (EKey.klass, EVal.int n) :: (EKey.subject, EVal.str s)
            :: exportKVs home 1 (Qpre ++ [(b, v)]) := by
        rw [hacc, exportKVs_append home Qpre [(b, v)] 1]
        have : 1 + Qpre.length = i := by omega
        rw [this]
        simp [exportKVs]
      simp only [hgrow]
      have ih := exportLoop_canonical home c s n rest (Qpre ++ [(b, v)]) f
        (by simp only [List.length_cons] at hf; omega)
      rw [List.append_assoc] at ih
      simp only [List.singleton_append, List.length_append, List.length_cons,
        List.length_nil] at ih
      have hIdx : Qpre.length + 0 + 1 + 1 = i + 1 := by omega
      rw [hIdx] at ih
      exact ih

theorem exportItem_canonical (home c s : String) (P : List (String × String)) (n : Nat)
    (hn : pyInt c = some n) :
    exportItem home (parse_if_else_block_data c s P)
      = .ok ((EKey.klass, EVal.int n) :: (EKey.subject, EVal.str s)
          :: exportKVs home 1 P) := by
  have hC : dictContains (parse_if_else_block_data c s P) RKey.CLASS = true := rfl
  have hS : dictContains (parse_if_else_block_data c s P) RKey.SUBJECT = true := rfl
  rw [exportItem]
  simp only [hC, hS, if_true, getE_parse_CLASS, getE_parse_SUBJECT, hn]
  have hloop := exportLoop_canonical home c s n P []
    ((parse_if_else_block_data c s P).length + 1) (by rw [parse_length]; omega)
  simp only [List.nil_append] at hloop
  exact hloop

theorem collectBooks_skip_klass (item : EDict) (w : EVal) (rest : List (EKey × EVal)) :
    collectBooks item ((EKey.klass, w) :: rest) = collectBooks item rest := rfl

theorem collectBooks_skip_subject (item : EDict) (w : EVal) (rest : List (EKey × EVal)) :
    collectBooks item ((EKey.subject, w) :: rest) = collectBooks item rest := rfl

theorem collectBooks_skip_basecode (item : EDict) (i : Nat) (w : EVal)
    (rest : List (EKey × EVal)) :
    collectBooks item ((EKey.basecode i, w) :: rest) = collectBooks item rest := rfl

theorem collectBooks_skip_code (item : EDict) (i : Nat) (w : EVal)
    (rest : List (EKey × EVal)) :
    collectBooks item ((EKey.code i, w) :: rest) = collectBooks item rest := rfl

theorem collectBooks_skip_link (item : EDict) (i : Nat) (w : EVal)
    (rest : List (EKey × EVal)) :
    collectBooks item ((EKey.link i, w) :: rest) = collectBooks item rest := rfl

theorem collectBooks_skip_dlink (item : EDict) (i : Nat) (w : EVal)
    (rest : List (EKey × EVal)) :
    collectBooks item ((EKey.dlink i, w) :: rest) = collectBooks item rest := rfl

theorem find_cons_basecode_ne (l : List (EKey × EVal)) (st m : Nat) (w : EVal)
    (h : ¬st = m) :
    List.find? (fun p => decide (p.1 = EKey.basecode m)) ((EKey.basecode st, w) :: l)
      = List.find? (fun p => decide (p.1 = EKey.basecode m)) l := by
  apply List.find?_cons_of_neg
  simp [h]

theorem find_cons_code_ne (l : List (EKey × EVal)) (st m : Nat) (w : EVal)
    (h : ¬st = m) :
    List.find? (fun p => decide (p.1 = EKey.code m)) ((EKey.code st, w) :: l)
      = List.find? (fun p => decide (p.1 = EKey.code m)) l := by
  apply List.find?_cons_of_neg
  simp [h]

theorem find_cons_link_ne (l : List (EKey × EVal)) (st m : Nat) (w : EVal)
    (h : ¬st = m) :
    List.find? (fun p => decide (p.1 = EKey.link m)) ((EKey.link st, w) :: l)
      = List.find? (fun p => decide (p.1 = EKey.link m)) l := by
  apply List.find?_cons_of_neg
  simp [h]

theorem find_cons_dlink_ne (l : List (EKey × EVal)) (st m : Nat) (w : EVal)
    (h : ¬st = m) :
    List.find? (fun p => decide (p.1 = EKey.dlink m)) ((EKey.dlink st, w) :: l)
      = List.find? (fun p => decide (p.1 = EKey.dlink m)) l := by
  apply List.find?_cons_of_neg
  simp [h]

theorem find_exportKVs_group (home b v : String) :
    ∀ (Qpre Qrest : List (String × String)) (st : Nat),
      ((exportKVs home st (Qpre ++ (b, v) :: Qrest)).find?
          (fun p => p.1 = EKey.basecode (st + Qpre.length))
        = some (EKey.basecode (st + Qpre.length), EVal.str v))
      ∧ ((exportKVs home st (Qpre ++ (b, v) :: Qrest)).find?
          (fun p => p.1 = EKey.code (st + Qpre.length))
        = some (EKey.code (st + Qpre.length), optToEVal (derive_links home v).1))
      ∧ ((exportKVs home st (Qpre ++ (b, v) :: Qrest)).find?
          (fun p => p.1 = EKey.link (st + Qpre.length))
        = some (EKey.link (st + Qpre.length), optToEVal (derive_links home v).2.1))
      ∧ ((exportKVs home st (Qpre ++ (b, v) :: Qrest)).find?
          (fun p => p.1 = EKey.dlink (st + Qpre.length))
        = some (EKey.dlink (st + Qpre.length), optToEVal (derive_links home v).2.2))
  | [], Qrest, st => by
    simp only [List.nil_append, List.length_nil, Nat.add_zero, exportKVs]
    refine ⟨?_, ?_, ?_, ?_⟩
    · rw [List.find?_cons_of_neg _ (by simp), List.find?_cons_of_pos _ (by simp)]
    · rw [List.find?_cons_of_neg _ (by simp), List.find?_cons_of_neg _ (by simp),
        List.find?_cons_of_pos _ (by simp)]
    · rw [List.find?_cons_of_neg _ (by simp), List.find?_cons_of_neg _ (by simp),
        List.find?_cons_of_neg _ (by simp), List.find?_cons_of_pos _ (by simp)]
    · rw [List.find?_cons_of_neg _ (by simp), List.find?_cons_of_neg _ (by simp),
        List.find?_cons_of_neg _ (by simp), List.find?_cons_of_neg _ (by simp),
        List.find?_cons_of_pos _ (by simp)]
  | (b0, v0) :: rest0, Qrest, st => by
    have ih := find_exportKVs_group home b v rest0 Qrest (st + 1)
    have harith : st + ((b0, v0) :: rest0).length = (st + 1) + rest0.length := by
      simp only [List.length_cons]; omega
    rw [harith, List.cons_append, exportKVs]
    refine ⟨?_, ?_, ?_, ?_⟩
    · rw [List.find?_cons_of_neg _ (by simp),
        find_cons_basecode_ne _ _ _ _ (by omega),
        List.find?_cons_of_neg _ (by simp), List.find?_cons_of_neg _ (by simp),
        List.find?_cons_of_neg _ (by simp)]
      exact ih.1
    · rw [List.find?_cons_of_neg _ (by simp), List.find?_cons_of_neg _ (by simp),
        find_cons_code_ne _ _ _ _ (by omega),
        List.find?_cons_of_neg _ (by simp), List.find?_cons_of_neg _ (by simp)]
      exact ih.2.1
    · rw [List.find?_cons_of_neg _ (by simp), List.find?_cons_of_neg _ (by simp),
        List.find?_cons_of_neg _ (by simp),
        find_cons_link_ne _ _ _ _ (by omega),
        List.find?_cons_of_neg _ (by simp)]
      exact ih.2.2.1
    · rw [List.find?_cons_of_neg _ (by simp), List.find?_cons_of_neg _ (by simp),
        List.find?_cons_of_neg _ (by simp), List.find?_cons_of_neg _ (by simp),
        find_cons_dlink_ne _ _ _ _ (by omega)]
      exact ih.2.2.2

theorem getE_export_group (home s : String) (n : Nat) (b v : String)
    (Qpre Qrest : List (String × String)) :
    (dictGetE ((EKey.klass, EVal.int n) :: (EKey.subject, EVal.str s)
          :: exportKVs home 1 (Qpre ++ (b, v) :: Qrest)) (EKey.basecode (1 + Qpre.length))
        = .ok (EVal.str v))
    ∧ (dictGetE ((EKey.klass, EVal.int n) :: (EKey.subject, EVal.str s)
          :: exportKVs home 1 (Qpre ++ (b, v) :: Qrest)) (EKey.code (1 + Qpre.length))
        = .ok (optToEVal (derive_links home v).1))
    ∧ (dictGetE ((EKey.klass, EVal.int n) :: (EKey.subject, EVal.str s)
          :: exportKVs home 1 (Qpre ++ (b, v) :: Qrest)) (EKey.link (1 + Qpre.length))
        = .ok (optToEVal (derive_links home v).2.1))
    ∧ (dictGetE ((EKey.klass, EVal.int n) :: (EKey.subject, EVal.str s)
          :: exportKVs home 1 (Qpre ++ (b, v) :: Qrest)) (EKey.dlink (1 + Qpre.length))
        = .ok (optToEVal (derive_links home v).2.2)) := by
  have hg := find_exportKVs_group home b v Qpre Qrest 1
  refine ⟨?_, ?_, ?_, ?_⟩
  · unfold dictGetE dictGet?
    rw [List.find?_cons_of_neg _ (by simp), List.find?_cons_of_neg _ (by simp), hg.1]
    rfl
  · unfold dictGetE dictGet?
    rw [List.find?_cons_of_neg _ (by simp), List.find?_cons_of_neg _ (by simp), hg.2.1]
    rfl
  · unfold dictGetE dictGet?
    rw [List.find?_cons_of_neg _ (by simp), List.find?_cons_of_neg _ (by simp), hg.2.2.1]
    rfl
  · unfold dictGetE dictGet?
    rw [List.find?_cons_of_neg _ (by simp), List.find?_cons_of_neg _ (by simp), hg.2.2.2]
    rfl

theorem collectBooks_canonical (home s : String) (n : Nat) :
    ∀ (Qrest Qpre P : List (String × String)), P = Qpre ++ Qrest →
      collectBooks ((EKey.klass, EVal.int n) :: (EKey.subject, EVal.str s)
          :: exportKVs home 1 P) (exportKVs home (1 + Qpre.length) Qrest)
        = .ok (booksOf home (1 + Qpre.length) Qrest)
  | [], Qpre, P, h => rfl
  | (b, v) :: rest, Qpre, P, h => by
    subst h
    have hG := getE_export_group home s n b v Qpre rest
    rw [exportKVs, collectBooks, hG.1, except_bind_ok, hG.2.1, except_bind_ok,
      hG.2.2.1, except_bind_ok, hG.2.2.2, except_bind_ok,
      collectBooks_skip_basecode, collectBooks_skip_code, collectBooks_skip_link,
      collectBooks_skip_dlink]
    have ih := collectBooks_canonical home s n rest (Qpre ++ [(b, v)])
      (Qpre ++ (b, v) :: rest) (by simp)
    have harith : 1 + (Qpre ++ [(b, v)]).length = 1 + Qpre.length + 1 := by
      simp only [List.length_append, List.length_cons, List.length_nil]
      omega
    rw [harith] at ih
    rw [ih, except_bind_ok]
    rfl

theorem transformItem_canonical (home s : String) (n : Nat) (P : List (String × String)) :
    transformItem ((EKey.klass, EVal.int n) :: (EKey.subject, EVal.str s)
        :: exportKVs home 1 P)
      = .ok (((EKey.klass, EVal.int n) :: (EKey.subject, EVal.str s) :: exportKVs home 1 P)
          ++ [(EKey.books, EVal.blist (booksOf home 1 P))]) := by
  rw [transformItem]
  have h0 := collectBooks_canonical home s n P [] P rfl
  simp only [List.length_nil] at h0
  have hcb : collectBooks ((EKey.klass, EVal.int n) :: (EKey.subject, EVal.str s)
        :: exportKVs home 1 P)
      ((EKey.klass, EVal.int n) :: (EKey.subject, EVal.str s) :: exportKVs home 1 P)
      = .ok (booksOf home 1 P) := by
    rw [collectBooks_skip_klass, collectBooks_skip_subject]
    exact h0
  rw [hcb, except_bind_ok]
  have hset : dictSet ((EKey.klass, EVal.int n) :: (EKey.subject, EVal.str s)
        :: exportKVs home 1 P) EKey.books (EVal.blist (booksOf home 1 P))
      = ((EKey.klass, EVal.int n) :: (EKey.subject, EVal.str s) :: exportKVs home 1 P)
          ++ [(EKey.books, EVal.blist (booksOf home 1 P))] := by
    apply dictSet_append
    intro p hp
    rcases List.mem_cons.mp hp with h | h
    · rw [h]; simp
    · rcases List.mem_cons.mp h with h2 | h2
      · rw [h2]; simp
      · obtain ⟨i, _, _, hc⟩ := exportKVs_keys home P 1 p h2
        rcases hc with h3 | h3 | h3 | h3 | h3 <;> rw [h3] <;> simp
  rw [hset]

theorem dropNonAlpha_canonical (home s : String) (n : Nat) (P : List (String × String))
    (bs : List BookRec) :
    dropNonAlphaKeys (((EKey.klass, EVal.int n) :: (EKey.subject, EVal.str s)
        :: exportKVs home 1 P) ++ [(EKey.books, EVal.blist bs)])
      = [(EKey.klass, EVal.int n), (EKey.subject, EVal.str s),
         (EKey.books, EVal.blist bs)] := by
  unfold dropNonAlphaKeys
  have hkv : (exportKVs home 1 P).filter (fun p => keyIsAlpha p.1) = [] := by
    rw [List.filter_eq_nil_iff]
    intro p hp
    obtain ⟨i, _, _, hc⟩ := exportKVs_keys home P 1 p hp
    rcases hc with h3 | h3 | h3 | h3 | h3 <;> rw [h3] <;> simp [keyIsAlpha]
  rw [List.cons_append, List.cons_append, List.filter_cons, List.filter_cons,
    List.filter_append, hkv]
  simp [keyIsAlpha]

theorem booksOf_map_id (home : String) : ∀ (P : List (String × String)) (st : Nat),
    (booksOf home st P).map bookRecId = List.range' st P.length
  | [], st => by simp [booksOf]
  | (b, v) :: rest, st => by
    simp only [booksOf, List.map_cons, bookRecId, booksOf_map_id home rest (st + 1),
      List.length_cons, List.range'_succ]

theorem booksOf_length (home : String) : ∀ (P : List (String × String)) (st : Nat),
    (booksOf home st P).length = P.length
  | [], _ => rfl
  | (b, v) :: rest, st => by
    simp only [booksOf, List.length_cons, booksOf_length home rest (st + 1)]

theorem booksOf_map_title (home : String) : ∀ (P : List (String × String)) (st : Nat),
    (booksOf home st P).map bookRecTitle = P.map (fun q => EVal.str q.1)
  | [], _ => rfl
  | (b, v) :: rest, st => by
    simp only [booksOf, List.map_cons, bookRecTitle, booksOf_map_title home rest (st + 1)]

/-! ## Claim theorems: query layer and page ordering -/

/-- C1: get_link returns the {downloadLink, link, code} fields of the last
book matching the (class, subject, title) selection, and fails (the spec's
NotFoundError, realized as Python's UnboundLocalError at the return) exactly
when no book in the catalog matches the selection. -/
theorem get_link_last_match_or_error (data : List CatalogEntry) (classno : Nat)
    (subname bookname : String) :
    get_link data classno subname bookname =
      ((matchingBooks data classno subname bookname).getLast?).elim
        (Except.error PyErr.unboundLocal)
        (fun bk => Except.ok (bk.dlink, bk.link, bk.code)) := by
  have key : get_link_fold data classno subname bookname =
      ((matchingBooks data classno subname bookname).getLast?).elim none
        (fun bk => some (bk.dlink, bk.link, bk.code)) := by
    unfold get_link_fold matchingBooks
    rw [foldl_guard_filter (fun item => item.classNo = classno ∧ item.subject = subname)
      (fun acc item => item.books.foldl
        (fun acc2 bk => if bk.title = bookname then some (bk.dlink, bk.link, bk.code) else acc2)
        acc) data none]
    simp only [foldl_guard_filter (fun bk : Book => bk.title = bookname)
      (fun (_ : Option (Option String × Option String × Option String)) (bk : Book) =>
        some (bk.dlink, bk.link, bk.code))]
    rw [← foldl_flatMap]
    exact foldl_lastify (fun bk : Book => (bk.dlink, bk.link, bk.code)) _ none
  rw [show (matchingBooks data classno subname bookname) =
    (data.filter (fun item => decide (item.classNo = classno ∧ item.subject = subname))).flatMap
      (fun item => item.books.filter (fun bk => decide (bk.title = bookname))) from rfl] at key ⊢
  unfold get_link
  rw [key]
  cases ((data.filter (fun item => decide (item.classNo = classno ∧ item.subject = subname))).flatMap
      (fun item => item.books.filter (fun bk => decide (bk.title = bookname)))).getLast? with
  | none => rfl
  | some bk => rfl

/-- C3 counterexample: a directory mixing a digit-keyed and a name-keyed
document filename does not sort at all — the key comparison raises
TypeError, so the Order+Merge sort is not total over mixed sets. -/
theorem merge_pdfs_order_mixed_keys_fails :
    merge_pdfs_order ["abc.pdf", "1.pdf"] = .error PyErr.typeError := by decide

/-- C3 (amended): filenames with no digit run are keyed by their literal
name, and the Order+Merge sort is total over every set of document
filenames that is homogeneous — all digit-keyed or all name-keyed; a set
mixing the two kinds raises TypeError instead of yielding an ordering. -/
theorem merge_pdfs_order_total_on_homogeneous (files : List String)
    (h : (∀ f ∈ files, hasDigitRun f = true) ∨ (∀ f ∈ files, hasDigitRun f = false)) :
    (∀ f, hasDigitRun f = false → extract_numeric_alpha f = .str f) ∧
    ∃ r, merge_pdfs_order files = .ok r := by
  constructor
  · intro f hf
    unfold hasDigitRun at hf
    unfold extract_numeric_alpha
    generalize hg : f.data = cs at hf
    clear hg
    induction cs with
    | nil => rfl
    | cons c rest ih =>
      simp only [List.any_cons, Bool.or_eq_false_iff] at hf
      simp [extractScan, hf.1, ih hf.2]
  · rcases h with h | h
    · obtain ⟨r, hr⟩ := foldlM_insert_ok extract_numeric_alpha true
        (files.filter (fun f => pyEndsWith f ".pdf")) []
        (fun x hx => by
          rw [keyIsTup_extract]
          exact h x (List.mem_of_mem_filter hx))
        (by intro y hy; exact absurd hy (List.not_mem_nil y))
      exact ⟨r, hr⟩
    · obtain ⟨r, hr⟩ := foldlM_insert_ok extract_numeric_alpha false
        (files.filter (fun f => pyEndsWith f ".pdf")) []
        (fun x hx => by
          rw [keyIsTup_extract]
          exact h x (List.mem_of_mem_filter hx))
        (by intro y hy; exact absurd hy (List.not_mem_nil y))
      exact ⟨r, hr⟩

/-- Witness for the amended C3 theorem at a concrete homogeneous set. -/
theorem merge_pdfs_order_total_on_homogeneous_witness :
    (∀ f, hasDigitRun f = false → extract_numeric_alpha f = .str f) ∧
    ∃ r, merge_pdfs_order ["3b.pdf", "1.pdf", "3a.pdf"] = .ok r :=
  merge_pdfs_order_total_on_homogeneous ["3b.pdf", "1.pdf", "3a.pdf"]
    (Or.inl (by decide))

theorem pySplitChars_no_sep (sep : Char) (A : List Char) (h : ∀ c ∈ A, c ≠ sep) :
    pySplitChars sep A = [A] := by
  induction A with
  | nil => rfl
  | cons a as ih =>
    have ha : a ≠ sep := h a (List.mem_cons_self a as)
    rw [pySplitChars, ih (fun c hc => h c (List.mem_cons_of_mem a hc))]
    simp [ha]

theorem pySplitChars_sep_prefix (sep : Char) (A B : List Char)
    (h : ∀ c ∈ A, c ≠ sep) :
    pySplitChars sep (A ++ sep :: B) = A :: pySplitChars sep B := by
  induction A with
  | nil => simp [pySplitChars]
  | cons a as ih =>
    have ha : a ≠ sep := h a (List.mem_cons_self a as)
    rw [List.cons_append, pySplitChars,
      ih (fun c hc => h c (List.mem_cons_of_mem a hc))]
    simp [ha]

/-- C5: the normalizer derivation rule.  A raw code of the shape
textbook.php?<id>=<suffix> (with no stray "?" or "=" inside the id)
derives code = id, link = <home>/<basecode> and
dlink = <home>/textbook/pdf/<id>dd.zip; a raw code that does not start
with "textbook.php?" derives three Nones. -/
theorem derive_links_textbook_codes (home id rest : String)
    (hq : ∀ c ∈ id.data, c ≠ '?') (he : ∀ c ∈ id.data, c ≠ '=') :
    derive_links home ("textbook.php?" ++ id ++ "=" ++ rest)
      = (some id,
         some (home ++ "/" ++ ("textbook.php?" ++ id ++ "=" ++ rest)),
         some (home ++ "/textbook/pdf/" ++ id ++ "dd.zip"))
    ∧ ∀ cv : String, pyStartsWith cv "textbook.php?" = false →
        derive_links home cv = (none, none, none) := by
  constructor
  · have hdata : ("textbook.php?" ++ id ++ "=" ++ rest).data
        = ("textbook.php?".data ++ id.data) ++ '=' :: rest.data := by
      simp [String.data_append]
    have hstart : pyStartsWith ("textbook.php?" ++ id ++ "=" ++ rest) "textbook.php?" = true := by
      unfold pyStartsWith
      rw [hdata]
      have hlen : "textbook.php?".data.length = 13 := by decide
      rw [List.append_assoc, hlen,
        show (13 : Nat) = "textbook.php?".data.length from by decide,
        List.take_left]
      simp
    have hA : ∀ c ∈ "textbook.php?".data ++ id.data, c ≠ '=' := by
      intro c hc
      rcases List.mem_append.mp hc with h1 | h2
      · exact (by decide : ∀ c ∈ "textbook.php?".data, c ≠ '=') c h1
      · exact he c h2
    have h1 : pySplit ("textbook.php?" ++ id ++ "=" ++ rest) '='
        = String.mk ("textbook.php?".data ++ id.data) :: (pySplitChars '=' rest.data).map String.mk := by
      unfold pySplit
      rw [hdata, pySplitChars_sep_prefix '=' _ _ hA]
      rfl
    have hA2 : ("textbook.php?".data ++ id.data) = "textbook.php".data ++ '?' :: id.data := by
      rw [show "textbook.php?".data = "textbook.php".data ++ ['?'] from by decide]
      simp
    have h2 : pySplit (String.mk ("textbook.php?".data ++ id.data)) '?'
        = [String.mk "textbook.php".data, String.mk id.data] := by
      unfold pySplit
      show (pySplitChars '?' ("textbook.php?".data ++ id.data)).map String.mk = _
      rw [hA2, pySplitChars_sep_prefix '?' _ _
          (fun c hc => (by decide : ∀ c ∈ "textbook.php".data, c ≠ '?') c hc),
        pySplitChars_no_sep '?' id.data hq]
      rfl
    show derive_links home ("textbook.php?" ++ id ++ "=" ++ rest) = _
    rw [derive_links, if_pos (by rw [hstart])]
    rw [h1]
    simp only [List.headD_cons]
    rw [h2]
    rfl
  · intro cv hcv
    rw [derive_links, if_neg (by rw [hcv]; exact Bool.false_ne_true)]

/-- Witness for C5 at the spec's concrete example: baseCode
textbook.php?1234=01 with home <home>. -/
theorem derive_links_textbook_codes_witness :
    ((∀ c ∈ ("1234" : String).data, c ≠ '?') ∧ (∀ c ∈ ("1234" : String).data, c ≠ '='))
    ∧ derive_links "<home>" ("textbook.php?" ++ "1234" ++ "=" ++ "01")
        = (some "1234",
           some ("<home>" ++ "/" ++ ("textbook.php?" ++ "1234" ++ "=" ++ "01")),
           some ("<home>" ++ "/textbook/pdf/" ++ "1234" ++ "dd.zip")) :=
  ⟨⟨by decide, by decide⟩,
    (derive_links_textbook_codes "<home>" "1234" "01" (by decide) (by decide)).1⟩

/-- C4: the Order+Merge sort orders page documents by the composite
(first digit run as int, following letter run) key: the set
2.pdf, 10.pdf, 2a.pdf, 1.pdf merges in the order 1, 2, 2a, 10, which is
not the lexical order of the names. -/
theorem merge_pdfs_order_numeric_then_alpha :
    merge_pdfs_order ["2.pdf", "10.pdf", "2a.pdf", "1.pdf"]
        = .ok ["1.pdf", "2.pdf", "2a.pdf", "10.pdf"] ∧
      ["1.pdf", "2.pdf", "2a.pdf", "10.pdf"]
        ≠ ["1.pdf", "10.pdf", "2.pdf", "2a.pdf"] := by
  constructor
  · decide
  · decide

theorem getD_set_self : ∀ (store : List RDict) (a : Nat) (m : RDict), a < store.length →
    (store.set a m).getD a [] = m
  | [], a, m, h => by simp at h
  | x :: xs, 0, m, _ => rfl
  | x :: xs, a + 1, m, h =>
    getD_set_self xs a m (by simpa using h)

theorem getD_set_ne : ∀ (store : List RDict) (a j : Nat) (m : RDict), j ≠ a →
    (store.set a m).getD j [] = store.getD j []
  | [], _, _, _, _ => rfl
  | x :: xs, 0, 0, m, h => absurd rfl h
  | x :: xs, 0, j + 1, m, h => rfl
  | x :: xs, a + 1, 0, m, h => rfl
  | x :: xs, a + 1, j + 1, m, h =>
    getD_set_ne xs a j m (fun hc => h (by rw [hc]))

/-- C6: merging one active parsed block holding 2 books with a commented
parsed block for the same (CLASS, SUBJECT) holding 1 book, then reshaping,
produces exactly one normalized catalog entry whose books sequence has
exactly 3 records with ids 1, 2, 3 in source order — the two active books
first, then the commented one. -/
theorem normalize_two_active_one_commented (home c s b1 v1 b2 v2 b3 v3 : String) (n : Nat)
    (hn : pyInt c = some n) :
    normalize_catalog home
        [parse_if_else_block_data c s [(b1, v1), (b2, v2)]]
        [parse_if_else_block_data c s [(b3, v3)]]
      = .ok [[(EKey.klass, EVal.int n), (EKey.subject, EVal.str s),
          (EKey.books, EVal.blist (booksOf home 1 [(b1, v1), (b2, v2), (b3, v3)]))]]
    ∧ (booksOf home 1 [(b1, v1), (b2, v2), (b3, v3)]).map bookRecId = [1, 2, 3]
    ∧ (booksOf home 1 [(b1, v1), (b2, v2), (b3, v3)]).map bookRecTitle
        = [EVal.str b1, EVal.str b2, EVal.str b3] := by
  refine ⟨?_, rfl, rfl⟩
  have hmr : mergeRecord (parse_if_else_block_data c s [(b1, v1), (b2, v2)])
      [parse_if_else_block_data c s [(b3, v3)]]
      = .ok (parse_if_else_block_data c s [(b1, v1), (b2, v2), (b3, v3)]) := by
    have h0 := mergeRecord_first_match c s [(b1, v1), (b2, v2)] [(b3, v3)] []
    simpa using h0
  rw [normalize_catalog, merge_blocks]
  simp only [mapE, hmr, except_bind_ok]
  rw [json_file_export_items]
  simp only [mapE, exportItem_canonical home c s [(b1, v1), (b2, v2), (b3, v3)] n hn,
    except_bind_ok]
  rw [transform_data]
  simp only [mapE, transformItem_canonical home s n [(b1, v1), (b2, v2), (b3, v3)],
    except_bind_ok]
  simp only [List.map_cons, List.map_nil,
    dropNonAlpha_canonical home s n [(b1, v1), (b2, v2), (b3, v3)]]

/-- Witness for C6 at a concrete class 10 / Science scrape. -/
theorem normalize_two_active_one_commented_witness :
    pyInt "10" = some 10
    ∧ (normalize_catalog "<home>"
          [parse_if_else_block_data "10" "Science" [("B1", "x1"), ("B2", "x2")]]
          [parse_if_else_block_data "10" "Science" [("B3", "x3")]]
        = .ok [[(EKey.klass, EVal.int 10), (EKey.subject, EVal.str "Science"),
            (EKey.books, EVal.blist (booksOf "<home>" 1
              [("B1", "x1"), ("B2", "x2"), ("B3", "x3")]))]]
      ∧ (booksOf "<home>" 1 [("B1", "x1"), ("B2", "x2"), ("B3", "x3")]).map bookRecId
          = [1, 2, 3]
      ∧ (booksOf "<home>" 1 [("B1", "x1"), ("B2", "x2"), ("B3", "x3")]).map bookRecTitle
          = [EVal.str "B1", EVal.str "B2", EVal.str "B3"]) :=
  ⟨by decide,
   normalize_two_active_one_commented "<home>" "10" "Science"
     "B1" "x1" "B2" "x2" "B3" "x3" 10 (by decide)⟩

/-- C8: in every catalog entry produced by a scrape-and-normalize run (any
combination of canonically parsed active blocks and merged commented
blocks), the books sequence carries ids 1..N contiguously in sequence
order. -/
theorem normalize_ids_contiguous (home : String) (vanilla commented : List RDict)
    (hv : ∀ r ∈ vanilla, ∃ c s P n, r = parse_if_else_block_data c s P ∧ pyInt c = some n)
    (hcl : ∀ r ∈ commented, ∃ c s Q, r = parse_if_else_block_data c s Q)
    (out : List EDict) (hout : normalize_catalog home vanilla commented = .ok out) :
    ∀ entry ∈ out, ∃ bs : List BookRec,
      dictGet? entry EKey.books = some (EVal.blist bs)
        ∧ bs.map bookRecId = List.range' 1 bs.length := by
  rw [normalize_catalog] at hout
  cases hmg : merge_blocks vanilla commented with
  | error e => rw [hmg, except_bind_error] at hout; cases hout
  | ok merged =>
    rw [hmg, except_bind_ok, json_file_export_items] at hout
    cases hex : mapE (exportItem home) merged with
    | error e => rw [hex, except_bind_error] at hout; cases hout
    | ok exported =>
      rw [hex, except_bind_ok, transform_data] at hout
      cases htr : mapE transformItem exported with
      | error e => rw [htr, except_bind_error] at hout; cases hout
      | ok transformed =>
        rw [htr, except_bind_ok] at hout
        cases hout
        intro entry hentry
        obtain ⟨t, ht, hdt⟩ := List.mem_map.mp hentry
        obtain ⟨e2, he2, hte⟩ := mapE_ok_mem transformItem exported transformed htr t ht
        obtain ⟨m, hm, hme⟩ := mapE_ok_mem (exportItem home) merged exported hex e2 he2
        rw [merge_blocks] at hmg
        obtain ⟨v0, hv0, hmv⟩ :=
          mapE_ok_mem (fun v => mergeRecord v commented) vanilla merged hmg m hm
        obtain ⟨c, s, P, n, hvp, hn⟩ := hv v0 hv0
        rw [hvp] at hmv
        obtain ⟨P2, hP2⟩ := mergeRecord_canonical c s P commented hcl
        rw [hP2] at hmv
        injection hmv with hmv2
        rw [← hmv2] at hme
        rw [exportItem_canonical home c s P2 n hn] at hme
        injection hme with hme2
        rw [← hme2] at hte
        rw [transformItem_canonical home s n P2] at hte
        injection hte with hte2
        rw [← hte2] at hdt
        rw [dropNonAlpha_canonical home s n P2 (booksOf home 1 P2)] at hdt
        refine ⟨booksOf home 1 P2, ?_, ?_⟩
        · rw [← hdt]
          rfl
        · rw [booksOf_length home P2 1, booksOf_map_id home P2 1]

/-- Witness for C8 on a one-block scrape with one merged commented book. -/
theorem normalize_ids_contiguous_witness :
    ∃ bs : List BookRec,
      dictGet? [(EKey.klass, EVal.int 10), (EKey.subject, EVal.str "Science"),
          (EKey.books, EVal.blist (booksOf "<home>" 1 [("B1", "x"), ("B2", "y")]))]
          EKey.books
        = some (EVal.blist bs) ∧ bs.map bookRecId = List.range' 1 bs.length :=
  normalize_ids_contiguous "<home>"
    [parse_if_else_block_data "10" "Science" [("B1", "x")]]
    [parse_if_else_block_data "10" "Science" [("B2", "y")]]
    (by
      intro r hr
      rw [List.mem_singleton] at hr
      exact ⟨"10", "Science", [("B1", "x")], 10, by rw [hr], by decide⟩)
    (by
      intro r hr
      rw [List.mem_singleton] at hr
      exact ⟨"10", "Science", [("B2", "y")], by rw [hr]⟩)
    [[(EKey.klass, EVal.int 10), (EKey.subject, EVal.str "Science"),
      (EKey.books, EVal.blist (booksOf "<home>" 1 [("B1", "x"), ("B2", "y")]))]]
    rfl
    [(EKey.klass, EVal.int 10), (EKey.subject, EVal.str "Science"),
      (EKey.books, EVal.blist (booksOf "<home>" 1 [("B1", "x"), ("B2", "y")]))]
    (List.mem_singleton.mpr rfl)

/-- C10: the heap model of merge_blocks shows the in-place mutation: the
returned merged list is exactly the input list of vanilla record
addresses, every other address is untouched, and after the call the store
holds at each vanilla address the record merged from the original store
contents — so the caller's active list itself shows the merged data. -/
theorem merge_blocks_heap_in_place (cas : List Nat) :
    ∀ (vas : List Nat) (store store2 : List RDict) (res : List Nat),
      merge_blocks_heap cas store vas = .ok (store2, res) →
      res = vas
      ∧ (vas.Nodup → (∀ a ∈ vas, a < store.length) → (∀ a ∈ vas, a ∉ cas) →
          (∀ j, j ∉ vas → store2.getD j [] = store.getD j [])
          ∧ ∀ a ∈ vas, mergeRecord (store.getD a [])
              (cas.map (fun ca => store.getD ca [])) = .ok (store2.getD a []))
  | [], store, store2, res, h => by
    rw [merge_blocks_heap] at h
    cases h
    exact ⟨rfl, fun _ _ _ =>
      ⟨fun j _ => rfl, fun a ha => absurd ha (List.not_mem_nil a)⟩⟩
  | a :: as, store, store2, res, h => by
    rw [merge_blocks_heap] at h
    cases hmr : mergeRecord (store.getD a []) (cas.map (fun ca => store.getD ca [])) with
    | error e => rw [hmr, except_bind_error] at h; cases h
    | ok m =>
      rw [hmr, except_bind_ok] at h
      cases hrec : merge_blocks_heap cas (store.set a m) as with
      | error e => rw [hrec, except_bind_error] at h; cases h
      | ok pr =>
        rw [hrec, except_bind_ok] at h
        cases h
        obtain ⟨hres, hrest⟩ :=
          merge_blocks_heap_in_place cas as (store.set a m) pr.1 pr.2 (by rw [hrec])
        constructor
        · rw [hres]
        · intro hnd hlt hdisj
          have hana : a ∉ as := (List.nodup_cons.mp hnd).1
          have hnd2 : as.Nodup := (List.nodup_cons.mp hnd).2
          have hlt2 : ∀ b ∈ as, b < (store.set a m).length := by
            intro b hb
            rw [List.length_set]
            exact hlt b (List.mem_cons_of_mem a hb)
          have hdisj2 : ∀ b ∈ as, b ∉ cas :=
            fun b hb => hdisj b (List.mem_cons_of_mem a hb)
          obtain ⟨hframe, hmerge⟩ := hrest hnd2 hlt2 hdisj2
          have hcasmap : cas.map (fun ca => (store.set a m).getD ca [])
              = cas.map (fun ca => store.getD ca []) := by
            apply List.map_congr_left
            intro ca hca
            exact getD_set_ne store a ca m
              (fun hc => hdisj a (List.mem_cons_self a as) (hc ▸ hca))
          constructor
          · intro j hj
            have hja : j ≠ a := fun hc => hj (hc ▸ List.mem_cons_self a as)
            have hjas : j ∉ as := fun hc => hj (List.mem_cons_of_mem a hc)
            rw [hframe j hjas, getD_set_ne store a j m hja]
          · intro b hb
            rcases List.mem_cons.mp hb with h1 | h2
            · subst h1
              rw [hframe b hana, getD_set_self store b m
                (hlt b (List.mem_cons_self b as))]
              exact hmr
            · have hres2 := hmerge b h2
              rw [hcasmap] at hres2
              rw [getD_set_ne store a b m (fun hc => hana (hc ▸ h2))] at hres2
              exact hres2

/-- Witness for C10 on a two-record store: the call returns the vanilla
address list itself, leaves the commented record untouched, and the store
at the vanilla address holds the merged record. -/
theorem merge_blocks_heap_in_place_witness :
    ([0] : List Nat) = [0]
    ∧ ((∀ j, j ∉ ([0] : List Nat) →
          ([parse_if_else_block_data "10" "Sci" [("B1", "x"), ("B2", "y")],
            parse_if_else_block_data "10" "Sci" [("B2", "y")]].getD j []
            = [parse_if_else_block_data "10" "Sci" [("B1", "x")],
               parse_if_else_block_data "10" "Sci" [("B2", "y")]].getD j []))
        ∧ ∀ a ∈ ([0] : List Nat),
            mergeRecord ([parse_if_else_block_data "10" "Sci" [("B1", "x")],
                parse_if_else_block_data "10" "Sci" [("B2", "y")]].getD a [])
              ([1].map (fun ca => [parse_if_else_block_data "10" "Sci" [("B1", "x")],
                parse_if_else_block_data "10" "Sci" [("B2", "y")]].getD ca []))
            = .ok ([parse_if_else_block_data "10" "Sci" [("B1", "x"), ("B2", "y")],
                parse_if_else_block_data "10" "Sci" [("B2", "y")]].getD a [])) := by
  have H := merge_blocks_heap_in_place [1] [0]
    [parse_if_else_block_data "10" "Sci" [("B1", "x")],
     parse_if_else_block_data "10" "Sci" [("B2", "y")]]
    [parse_if_else_block_data "10" "Sci" [("B1", "x"), ("B2", "y")],
     parse_if_else_block_data "10" "Sci" [("B2", "y")]]
    [0] (by decide)
  exact ⟨H.1, H.2 (by decide) (by decide) (by decide)⟩

/-- C2: when the archive download returns a non-success HTTP status,
download_file only prints and returns None, and the pipeline then aborts
inside unzip_file (os.path.basename(None) raises TypeError) before any
extraction happens: the filesystem is returned exactly as it was, so the
output directory is unchanged, no downloaded file is retained, and no
Extract event is ever recorded. -/
theorem download_failure_aborts (json_data : List CatalogEntry) (class_number : Nat)
    (subject_name book_name processing_path opt_path : String) (o : Oracle) (fs : Fs)
    (hdl : ∃ dl pl cd, get_link json_data class_number subject_name book_name
      = .ok (some dl, pl, cd))
    (hst : ¬o.status = 200)
    (hev : Event.extracted ∉ fs.events) :
    run_funcs_cli json_data class_number subject_name book_name
        processing_path opt_path o fs = (fs, .error .typeError)
    ∧ (run_funcs_cli json_data class_number subject_name book_name
        processing_path opt_path o fs).1.output = fs.output
    ∧ Event.extracted ∉ (run_funcs_cli json_data class_number subject_name book_name
        processing_path opt_path o fs).1.events := by
  obtain ⟨dl, pl, cd, hgl⟩ := hdl
  have key : run_funcs_cli json_data class_number subject_name book_name
      processing_path opt_path o fs = (fs, .error .typeError) := by
    rw [run_funcs_cli]
    simp only [hgl, download_file, unzip_file, if_neg hst]
  exact ⟨key, by rw [key], by rw [key]; exact hev⟩

/-- Witness for C2: a concrete one-book catalog, a 404 status, and an
empty starting filesystem. -/
theorem download_failure_aborts_witness :
    (∃ dl pl cd,
      get_link [⟨10, "Science", [⟨1, "Light", "bc", some "1064", some "http://h/tb",
          some "http://h/files/bk.zip"⟩]⟩] 10 "Science" "Light" = .ok (some dl, pl, cd))
    ∧ ¬(404 : Nat) = 200
    ∧ run_funcs_cli [⟨10, "Science", [⟨1, "Light", "bc", some "1064", some "http://h/tb",
          some "http://h/files/bk.zip"⟩]⟩] 10 "Science" "Light" "proc" "out"
        ⟨404, []⟩ ⟨[], [], []⟩
      = (⟨[], [], []⟩, .error .typeError) :=
  ⟨⟨"http://h/files/bk.zip", some "http://h/tb", some "1064", by decide⟩, by decide,
   (download_failure_aborts [⟨10, "Science", [⟨1, "Light", "bc", some "1064",
        some "http://h/tb", some "http://h/files/bk.zip"⟩]⟩] 10 "Science" "Light"
      "proc" "out" ⟨404, []⟩ ⟨[], [], []⟩
      ⟨"http://h/files/bk.zip", some "http://h/tb", some "1064", by decide⟩
      (by decide) (by decide)).1⟩

/-- C9: with identical inputs and identical external-I/O outcomes, the
progress-reporting variant run_funcs_gui performs the same eight stages in
the same order — ending in the same filesystem state and event trace as
run_funcs_cli — and returns the same (downloadLink, pageLink, code,
generatedFileName) tuple, additionally invoking the progress callback
with the fractions k/8 for k = 1..8, all of which lie in [0, 1]. -/
theorem gui_refines_cli (json_data : List CatalogEntry) (class_number : Nat)
    (subject_name book_name processing_path opt_path : String) (o : Oracle) (fs : Fs)
    (r : Option String × Option String × Option String × String)
    (hok : (run_funcs_cli json_data class_number subject_name book_name
        processing_path opt_path o fs).2 = .ok r) :
    run_funcs_gui json_data class_number subject_name book_name
        processing_path opt_path o fs
      = ((run_funcs_cli json_data class_number subject_name book_name
            processing_path opt_path o fs).1,
         [1/8, 2/8, 3/8, 4/8, 5/8, 6/8, 7/8, 8/8], .ok r)
    ∧ ∀ p ∈ [(1 : ℚ)/8, 2/8, 3/8, 4/8, 5/8, 6/8, 7/8, 8/8], 0 ≤ p ∧ p ≤ 1 := by
  refine ⟨?_, by intro p hp; fin_cases hp <;> norm_num⟩
  cases hgl : get_link json_data class_number subject_name book_name with
  | error e =>
    simp only [run_funcs_cli, hgl] at hok
    exact Except.noConfusion hok
  | ok trip =>
    obtain ⟨dl, pl, cd⟩ := trip
    rcases hdf : download_file dl processing_path o fs with ⟨fs1, e1 | opt_file⟩
    · simp only [run_funcs_cli, hgl, hdf] at hok
      exact Except.noConfusion hok
    · rcases hz : unzip_file opt_file processing_path o fs1 with ⟨fs2, e2 | unzip_path⟩
      · simp only [run_funcs_cli, hgl, hdf, hz] at hok
        exact Except.noConfusion hok
      · rcases hcv : convert_images_to_pdfs unzip_path fs2 with ⟨fs3, e3 | u3⟩
        · simp only [run_funcs_cli, hgl, hdf, hz, hcv] at hok
          exact Except.noConfusion hok
        · rcases hmg2 : merge_pdfs unzip_path
              (file_name_gen processing_path class_number subject_name book_name).2 fs3
            with ⟨fs4, e4 | u4⟩
          · simp only [run_funcs_cli, hgl, hdf, hz, hcv, hmg2] at hok
            exact Except.noConfusion hok
          · rcases hcl : clean_up_directory_fs processing_path
                (file_name_gen processing_path class_number subject_name book_name).2 fs4
              with ⟨fs5, e5 | u5⟩
            · simp only [run_funcs_cli, hgl, hdf, hz, hcv, hmg2, hcl] at hok
              exact Except.noConfusion hok
            · rcases hmv : move_file
                  (file_name_gen processing_path class_number subject_name book_name).2
                  opt_path fs5
                with ⟨fs6, e6 | u6⟩
              · simp only [run_funcs_cli, hgl, hdf, hz, hcv, hmg2, hcl, hmv] at hok
                exact Except.noConfusion hok
              · simp only [run_funcs_cli, hgl, hdf, hz, hcv, hmg2, hcl, hmv] at hok ⊢
                simp only [run_funcs_gui, hgl, hdf, hz, hcv, hmg2, hcl, hmv]
                rw [hok]

/-- Witness for C9: a concrete successful end-to-end run (one-book
catalog, 200 status, two page images). -/
theorem gui_refines_cli_witness :
    ((run_funcs_cli [⟨10, "Science", [⟨1, "Light", "bc", some "1064", some "http://h/tb",
          some "http://h/files/bk.zip"⟩]⟩] 10 "Science" "Light" "proc" "out"
        ⟨200, ["1.jpg", "2.jpg"]⟩ ⟨[], [], []⟩).2
      = .ok (some "http://h/files/bk.zip", some "http://h/tb", some "1064",
          "10_Science_Light.pdf"))
    ∧ run_funcs_gui [⟨10, "Science", [⟨1, "Light", "bc", some "1064", some "http://h/tb",
          some "http://h/files/bk.zip"⟩]⟩] 10 "Science" "Light" "proc" "out"
        ⟨200, ["1.jpg", "2.jpg"]⟩ ⟨[], [], []⟩
      = ((run_funcs_cli [⟨10, "Science", [⟨1, "Light", "bc", some "1064",
            some "http://h/tb", some "http://h/files/bk.zip"⟩]⟩] 10 "Science" "Light"
            "proc" "out" ⟨200, ["1.jpg", "2.jpg"]⟩ ⟨[], [], []⟩).1,
         [1/8, 2/8, 3/8, 4/8, 5/8, 6/8, 7/8, 8/8],
         .ok (some "http://h/files/bk.zip", some "http://h/tb", some "1064",
           "10_Science_Light.pdf")) :=
  ⟨rfl,
   (gui_refines_cli [⟨10, "Science", [⟨1, "Light", "bc", some "1064", some "http://h/tb",
        some "http://h/files/bk.zip"⟩]⟩] 10 "Science" "Light" "proc" "out"
      ⟨200, ["1.jpg", "2.jpg"]⟩ ⟨[], [], []⟩
      (some "http://h/files/bk.zip", some "http://h/tb", some "1064",
        "10_Science_Light.pdf") rfl).1⟩

/-- C7 counterexample: in the pipeline's Cleanup stage (clean_up_directory)
a failing deletion aborts the pass: with a first scratch entry whose
deletion raises, the error propagates, nothing is logged per-item, and the
second, deletable entry is never attempted (the deleted list stays empty). -/
theorem clean_up_directory_aborts_on_failure :
    clean_up_directory "proc" "proc/out.pdf"
        [⟨"book.zip", true, false, false, some "busy"⟩,
         ⟨"book", false, false, true, none⟩]
      = ([], some (PyErr.osError "busy")) := by decide

/-- C7 (amended): best-effort per-item deletion with logged failures holds
for the standalone folders_cleanup.cleanup_folder utility, not for the
pipeline's clean_up_directory (which propagates the first failure, see the
counterexample): cleanup_folder processes every non-.gitkeep entry in
order regardless of failures, and logs a failed line for every deletion
attempt that raised. -/
theorem cleanup_folder_best_effort (folder : String) (entries : List DirEntry) :
    (cleanup_folder folder entries).map Prod.fst
        = (entries.filter (fun e => e.name ≠ ".gitkeep")).map
            (fun e => folder ++ "/" ++ e.name)
    ∧ ∀ e ∈ entries, e.name ≠ ".gitkeep" →
        ((e.isFile || e.isLink || e.isDir) && e.delFails.isSome) = true →
        (folder ++ "/" ++ e.name, false) ∈ cleanup_folder folder entries := by
  induction entries with
  | nil => exact ⟨rfl, by intro e he; exact absurd he (List.not_mem_nil e)⟩
  | cons e es ih =>
    by_cases h : e.name = ".gitkeep"
    · refine ⟨by simp [cleanup_folder, h, ih.1], ?_⟩
      intro x hx hxn hxr
      rcases List.mem_cons.mp hx with h1 | h2
      · rw [h1] at hxn; exact absurd h hxn
      · simp only [cleanup_folder, if_pos h]
        exact ih.2 x h2 hxn hxr
    · refine ⟨by simp [cleanup_folder, h, ih.1], ?_⟩
      intro x hx hxn hxr
      simp only [cleanup_folder, if_neg h]
      rcases List.mem_cons.mp hx with h1 | h2
      · subst h1
        simp [hxr]
      · exact List.mem_cons_of_mem _ (ih.2 x h2 hxn hxr)

/-- Witness for the amended C7 theorem on a concrete listing whose first
entry fails to delete and whose second succeeds. -/
theorem cleanup_folder_best_effort_witness :
    (cleanup_folder "proc" [⟨"a.zip", true, false, false, some "busy"⟩,
        ⟨"b", false, false, true, none⟩]).map Prod.fst
        = ["proc/a.zip", "proc/b"]
    ∧ ("proc/a.zip", false) ∈ cleanup_folder "proc"
        [⟨"a.zip", true, false, false, some "busy"⟩,
         ⟨"b", false, false, true, none⟩] :=
  ⟨by decide,
   (cleanup_folder_best_effort "proc"
      [⟨"a.zip", true, false, false, some "busy"⟩,
       ⟨"b", false, false, true, none⟩]).2
     ⟨"a.zip", true, false, false, some "busy"⟩ (by decide) (by decide) (by decide)⟩

end NCERT
